import Mathlib

/-!
Verification development for the tinydocx markdown → DOCX/ODT converter
(`src/index.ts`).  The TypeScript source is shallowly embedded: strings are
modelled as `List Char` (one entry per UTF-16 code unit; all relevant input is
ASCII), byte arrays as `List Nat` with values below 256, parser combinators as
functions `List Char → PRes α`, and the imperative loops as structural or
well-founded recursion.
-/

namespace Tinydocx

/-- Result type of a parser: `Result<T> = {ok:true; val; rest} | {ok:false}`. -/
inductive PRes (α : Type) where
  | ok (val : α) (rest : List Char)
  | fail
deriving DecidableEq, Repr

/-- The inline token tree (`type InlineToken` in the source). -/
inductive InlineToken where
  | text (content : List Char)
  | bold (children : List InlineToken)
  | italic (children : List InlineToken)
  | code (content : List Char)
  | strike (children : List InlineToken)
  | link (children : List InlineToken) (href : List Char)
  | image (alt : List Char) (src : List Char)

/-- The backquote character (code point 96). -/
def backquote : Char := Char.ofNat 96

/-- `inlineSpecials = new Set(['*','_','`','~','[','!','\\'])`. -/
def isInlineSpecial (c : Char) : Bool :=
  c = '*' || c = '_' || c = backquote || c = '~' || c = '[' || c = '!' || c = '\\'

/-- `escapeP`: a backslash followed by any character yields that literal
character (`seq(lit('\\'), anyChar)`). -/
def escapeP : List Char → PRes InlineToken
  | '\\' :: c :: rest => .ok (.text [c]) rest
  | _ => .fail

/-- `codeP = between('`','`', takeWhile(c => c !== '`'))`; the `takeWhile`
parser fails when it consumes no characters. -/
def codeP (s : List Char) : PRes InlineToken :=
  match s with
  | c0 :: rest =>
    if c0 = backquote then
      let content := rest.takeWhile (fun c => c ≠ backquote)
      if content.isEmpty then .fail
      else
        match rest.dropWhile (fun c => c ≠ backquote) with
        | c1 :: rest2 =>
          if c1 = backquote then .ok (.code content) rest2 else .fail
        | _ => .fail
    else .fail
  | _ => .fail

/-- `imageP`: `![alt](src)` with `indexOf`-based scanning, no recursion. -/
def imageP (s : List Char) : PRes InlineToken :=
  match s with
  | '!' :: '[' :: rest =>
    match rest.findIdx? (fun c => c = ']') with
    | none => .fail
    | some i =>
      let alt := rest.take i
      match rest.drop (i+1) with
      | '(' :: after2 =>
        match after2.findIdx? (fun c => c = ')') with
        | none => .fail
        | some j => .ok (.image alt (after2.take j)) (after2.drop (j+1))
      | _ => .fail
  | _ => .fail

/-- `plainTextP = takeWhile(c => !inlineSpecials.has(c))`; fails on zero
characters. -/
def plainTextP (s : List Char) : PRes InlineToken :=
  let content := s.takeWhile (fun c => !(isInlineSpecial c))
  if content.isEmpty then .fail
  else .ok (.text content) (s.dropWhile (fun c => !(isInlineSpecial c)))

/-- `singleCharP = map(anyChar, ...)`: consumes exactly one character. -/
def singleCharP : List Char → PRes InlineToken
  | c :: rest => .ok (.text [c]) rest
  | [] => .fail

mutual

/-- The ordered alternation `inlineElem = alt(escapeP, codeP, boldP, strikeP,
italicP, imageP, linkP, plainTextP, singleCharP)`. -/
def inlineElem (s : List Char) : PRes InlineToken :=
  match escapeP s with
  | .ok v r => .ok v r
  | .fail =>
  match codeP s with
  | .ok v r => .ok v r
  | .fail =>
  match boldP s with
  | .ok v r => .ok v r
  | .fail =>
  match strikeP s with
  | .ok v r => .ok v r
  | .fail =>
  match italicP s with
  | .ok v r => .ok v r
  | .fail =>
  match imageP s with
  | .ok v r => .ok v r
  | .fail =>
  match linkP s with
  | .ok v r => .ok v r
  | .fail =>
  match plainTextP s with
  | .ok v r => .ok v r
  | .fail => singleCharP s
termination_by (s.length, 1)

/-- `boldP`: `**...**` or `__...__`, interior parsed by `untilInline`; the
second alternative is only reachable when the first marker fails to match. -/
def boldP (s : List Char) : PRes InlineToken :=
  match s with
  | '*' :: '*' :: rest =>
    let p := untilInline ['*', '*'] rest
    match p.2 with
    | '*' :: '*' :: rest3 => .ok (.bold p.1) rest3
    | _ => .fail
  | '_' :: '_' :: rest =>
    let p := untilInline ['_', '_'] rest
    match p.2 with
    | '_' :: '_' :: rest3 => .ok (.bold p.1) rest3
    | _ => .fail
  | _ => .fail
termination_by (s.length, 0)

/-- `strikeP = between('~~','~~', untilInline('~~'))`. -/
def strikeP (s : List Char) : PRes InlineToken :=
  match s with
  | '~' :: '~' :: rest =>
    let p := untilInline ['~', '~'] rest
    match p.2 with
    | '~' :: '~' :: rest3 => .ok (.strike p.1) rest3
    | _ => .fail
  | _ => .fail
termination_by (s.length, 0)

/-- `italicP`: single `*` or `_` marker, not doubled, with the interior found
by `indexOf(marker, 1)` and recursively inline-parsed; `end <= 1` fails. -/
def italicP (s : List Char) : PRes InlineToken :=
  match s with
  | c :: rest =>
    if c = '*' ∨ c = '_' then
      if (rest.head?.isSome ∧ rest.head? = some c) then .fail
      else
        match rest.findIdx? (fun d => d = c) with
        | none => .fail
        | some i =>
          if i + 1 ≤ 1 then .fail
          else .ok (.italic (parseInlineTokens (rest.take i))) (rest.drop (i+1))
    else .fail
  | [] => .fail
termination_by (s.length, 0)

/-- `linkP`: `[text](url)`, link text recursively inline-parsed. -/
def linkP (s : List Char) : PRes InlineToken :=
  match s with
  | '[' :: rest =>
    match rest.findIdx? (fun c => c = ']') with
    | none => .fail
    | some i =>
      match rest.drop (i+1) with
      | '(' :: after2 =>
        match after2.findIdx? (fun c => c = ')') with
        | none => .fail
        | some j =>
          .ok (.link (parseInlineTokens (rest.take i)) (after2.take j)) (after2.drop (j+1))
      | _ => .fail
  | _ => .fail
termination_by (s.length, 0)

/-- `untilInline(delim)`: accumulate `inlineElem` results until the input is
exhausted, starts with the delimiter, or the element parser fails.  The
source's `while` loop relies on `inlineElem` consuming input; the size guard
mirrors that (its `else` branch is unreachable, see `inlineElem_consumes`). -/
def untilInline (delim : List Char) (s : List Char) : List InlineToken × List Char :=
  if s.isEmpty then ([], s)
  else if delim.isPrefixOf s then ([], s)
  else
    match inlineElem s with
    | .fail => ([], s)
    | .ok v r =>
      if _h : r.length < s.length then
        let q := untilInline delim r
        (v :: q.1, q.2)
      else ([v], r)
termination_by (s.length, 2)

/-- `many(inlineElem)`: the zero-or-more loop from the source's `many`
combinator, specialised to its single use site; same size guard remark as
`untilInline`. -/
def manyInline (s : List Char) : List InlineToken × List Char :=
  match inlineElem s with
  | .fail => ([], s)
  | .ok v r =>
    if _h : r.length < s.length then
      let q := manyInline r
      (v :: q.1, q.2)
    else ([v], r)
termination_by (s.length, 2)

/-- `parseInlineTokens`: run `many(inlineElem)` and keep the token list (the
`many` combinator always succeeds, so the fallback branch of the source is
dead code). -/
def parseInlineTokens (s : List Char) : List InlineToken :=
  (manyInline s).1
termination_by (s.length, 3)

end

end Tinydocx


namespace Tinydocx

/-- Successful `escapeP` consumes at least one character. -/
theorem escapeP_consumes {s : List Char} {v : InlineToken} {r : List Char}
    (h : escapeP s = .ok v r) : r.length < s.length := by
  unfold escapeP at h
  split at h
  · cases h; simp; omega
  · cases h

/-- Successful `codeP` consumes at least one character. -/
theorem codeP_consumes {s : List Char} {v : InlineToken} {r : List Char}
    (h : codeP s = .ok v r) : r.length < s.length := by
  unfold codeP at h
  split at h
  · rename_i c0 rest
    split at h
    · simp only [] at h
      split at h
      · cases h
      · split at h
        · rename_i c1 rest2 heq
          split at h
          · cases h
            have h1 : (rest.dropWhile (fun c => c ≠ backquote)).length ≤ rest.length :=
              (List.dropWhile_suffix _).length_le
            rw [heq] at h1
            simp at h1 ⊢; omega
          · cases h
        · cases h
    · cases h
  · cases h

/-- Successful `imageP` consumes at least one character. -/
theorem imageP_consumes {s : List Char} {v : InlineToken} {r : List Char}
    (h : imageP s = .ok v r) : r.length < s.length := by
  unfold imageP at h
  split at h
  · rename_i rest
    split at h
    · cases h
    · rename_i i _
      split at h
      · rename_i after2 heq
        split at h
        · cases h
        · rename_i j _
          cases h
          have h1 : (rest.drop (i+1)).length ≤ rest.length := by
            simp [List.length_drop]
          rw [heq] at h1
          have h2 : (after2.drop (j+1)).length ≤ after2.length := by
            simp [List.length_drop]
          simp at h1 ⊢
          omega
      · cases h
  · cases h

/-- Successful `linkP` consumes at least one character. -/
theorem linkP_consumes {s : List Char} {v : InlineToken} {r : List Char}
    (h : linkP s = .ok v r) : r.length < s.length := by
  unfold linkP at h
  split at h
  · rename_i rest
    split at h
    · cases h
    · rename_i i _
      split at h
      · rename_i after2 heq
        split at h
        · cases h
        · rename_i j _
          cases h
          have h1 : (rest.drop (i+1)).length ≤ rest.length := by
            simp [List.length_drop]
          rw [heq] at h1
          have h2 : (after2.drop (j+1)).length ≤ after2.length := by
            simp [List.length_drop]
          simp at h1 ⊢
          omega
      · cases h
  · cases h

/-- Successful `italicP` consumes at least one character. -/
theorem italicP_consumes {s : List Char} {v : InlineToken} {r : List Char}
    (h : italicP s = .ok v r) : r.length < s.length := by
  unfold italicP at h
  split at h
  · rename_i c rest
    split at h
    · split at h
      · cases h
      · split at h
        · cases h
        · split at h
          · cases h
          · cases h
            simp [List.length_drop]
            omega
    · cases h
  · cases h

/-- Successful `plainTextP` consumes at least one character. -/
theorem plainTextP_consumes {s : List Char} {v : InlineToken} {r : List Char}
    (h : plainTextP s = .ok v r) : r.length < s.length := by
  unfold plainTextP at h
  simp only [] at h
  split at h
  · cases h
  · rename_i hne
    cases h
    have h1 := congrArg List.length
      (List.takeWhile_append_dropWhile (p := fun c => !(isInlineSpecial c)) (l := s))
    simp only [List.length_append] at h1
    have h2 : (s.takeWhile fun c => !(isInlineSpecial c)) ≠ [] := by
      simpa [List.isEmpty_iff] using hne
    have h3 : 0 < (s.takeWhile fun c => !(isInlineSpecial c)).length := List.length_pos.2 h2
    omega

/-- Successful `singleCharP` consumes at least one character. -/
theorem singleCharP_consumes {s : List Char} {v : InlineToken} {r : List Char}
    (h : singleCharP s = .ok v r) : r.length < s.length := by
  unfold singleCharP at h
  split at h
  · cases h; simp
  · cases h

end Tinydocx

namespace Tinydocx

/-- Successful `boldP` consumes at least one character, given that
`untilInline` never produces a longer remainder on the interior. -/
theorem boldP_consumes {s : List Char} {v : InlineToken} {r : List Char}
    (hU : ∀ (d t : List Char), t.length < s.length →
      (untilInline d t).2.length ≤ t.length)
    (h : boldP s = .ok v r) : r.length < s.length := by
  unfold boldP at h
  split at h
  · rename_i rest
    simp only [] at h
    split at h
    · rename_i rest3 heq
      cases h
      have h1 := hU ['*', '*'] rest (by simp only [List.length_cons]; omega)
      rw [heq] at h1
      simp at h1 ⊢
      omega
    · cases h
  · rename_i rest
    simp only [] at h
    split at h
    · rename_i rest3 heq
      cases h
      have h1 := hU ['_', '_'] rest (by simp only [List.length_cons]; omega)
      rw [heq] at h1
      simp at h1 ⊢
      omega
    · cases h
  · cases h

/-- Successful `strikeP` consumes at least one character, under the same
`untilInline` bound. -/
theorem strikeP_consumes {s : List Char} {v : InlineToken} {r : List Char}
    (hU : ∀ (d t : List Char), t.length < s.length →
      (untilInline d t).2.length ≤ t.length)
    (h : strikeP s = .ok v r) : r.length < s.length := by
  unfold strikeP at h
  split at h
  · rename_i rest
    simp only [] at h
    split at h
    · rename_i rest3 heq
      cases h
      have h1 := hU ['~', '~'] rest (by simp only [List.length_cons]; omega)
      rw [heq] at h1
      simp at h1 ⊢
      omega
    · cases h
  · cases h

end Tinydocx

namespace Tinydocx

/-- A successful `inlineElem` comes from one of the nine ordered
alternatives. -/
theorem inlineElem_cases {s : List Char} {v : InlineToken} {r : List Char}
    (h : inlineElem s = .ok v r) :
    escapeP s = .ok v r ∨ codeP s = .ok v r ∨ boldP s = .ok v r ∨
    strikeP s = .ok v r ∨ italicP s = .ok v r ∨ imageP s = .ok v r ∨
    linkP s = .ok v r ∨ plainTextP s = .ok v r ∨ singleCharP s = .ok v r := by
  unfold inlineElem at h
  split at h
  · rename_i heq; cases h; exact Or.inl heq
  · split at h
    · rename_i heq; cases h; exact Or.inr (Or.inl heq)
    · split at h
      · rename_i heq; cases h; exact Or.inr (Or.inr (Or.inl heq))
      · split at h
        · rename_i heq; cases h
          exact Or.inr (Or.inr (Or.inr (Or.inl heq)))
        · split at h
          · rename_i heq; cases h
            exact Or.inr (Or.inr (Or.inr (Or.inr (Or.inl heq))))
          · split at h
            · rename_i heq; cases h
              exact Or.inr (Or.inr (Or.inr (Or.inr (Or.inr (Or.inl heq)))))
            · split at h
              · rename_i heq; cases h
                exact Or.inr (Or.inr (Or.inr (Or.inr (Or.inr (Or.inr (Or.inl heq))))))
              · split at h
                · rename_i heq; cases h
                  exact Or.inr (Or.inr (Or.inr (Or.inr (Or.inr (Or.inr (Or.inr (Or.inl heq)))))))
                · exact Or.inr (Or.inr (Or.inr (Or.inr (Or.inr (Or.inr (Or.inr (Or.inr h)))))))

/-- Simultaneous strong induction: every successful `inlineElem` strictly
consumes input, and `untilInline` never returns a remainder longer than its
input.  This is the property the source's `while` loops rely on for
termination. -/
theorem inline_progress : ∀ n : Nat,
    (∀ s : List Char, s.length ≤ n → ∀ (v : InlineToken) (r : List Char),
        inlineElem s = .ok v r → r.length < s.length) ∧
    (∀ (d s : List Char), s.length ≤ n → (untilInline d s).2.length ≤ s.length) := by
  intro n
  induction n using Nat.strong_induction_on with
  | _ n ih =>
    have hA : ∀ s : List Char, s.length ≤ n → ∀ (v : InlineToken) (r : List Char),
        inlineElem s = .ok v r → r.length < s.length := by
      intro s hs v r h
      have hU : ∀ (d t : List Char), t.length < s.length →
          (untilInline d t).2.length ≤ t.length := by
        intro d t ht
        exact (ih t.length (by omega)).2 d t le_rfl
      rcases inlineElem_cases h with hc | hc | hc | hc | hc | hc | hc | hc | hc
      · exact escapeP_consumes hc
      · exact codeP_consumes hc
      · exact boldP_consumes hU hc
      · exact strikeP_consumes hU hc
      · exact italicP_consumes hc
      · exact imageP_consumes hc
      · exact linkP_consumes hc
      · exact plainTextP_consumes hc
      · exact singleCharP_consumes hc
    refine ⟨hA, ?_⟩
    intro d s hs
    unfold untilInline
    split
    · simp
    · split
      · simp
      · split
        · simp
        · rename_i v r heq
          split
          · rename_i hlt
            simp only []
            have h1 := (ih r.length (by omega)).2 d r le_rfl
            omega
          · rename_i hnlt
            exact absurd (hA s hs v r heq) hnlt

/-- Every successful step of the inline-element parser consumes at least one
character of input. -/
theorem inlineElem_consumes {s : List Char} {v : InlineToken} {r : List Char}
    (h : inlineElem s = .ok v r) : r.length < s.length :=
  (inline_progress s.length).1 s le_rfl v r h

/-- The remainder returned by `untilInline` is never longer than its input. -/
theorem untilInline_rest_le (d s : List Char) :
    (untilInline d s).2.length ≤ s.length :=
  (inline_progress s.length).2 d s le_rfl

/-- Unfolding equation for `manyInline` in the successful case: the size
guard in the definition always holds. -/
theorem manyInline_ok {s : List Char} {v : InlineToken} {r : List Char}
    (h : inlineElem s = .ok v r) :
    manyInline s = (v :: (manyInline r).1, (manyInline r).2) := by
  conv_lhs => unfold manyInline
  rw [h]
  dsimp only []
  rw [dif_pos (inlineElem_consumes h)]

/-- Unfolding equation for `manyInline` in the failing case. -/
theorem manyInline_fail {s : List Char} (h : inlineElem s = .fail) :
    manyInline s = ([], s) := by
  conv_lhs => unfold manyInline
  rw [h]

end Tinydocx

namespace Tinydocx

/-- Fuel-indexed model of the source's unbounded `many` loop: `none` means
the loop would still be running after `fuel` iterations. -/
def manyInlineF : Nat → List Char → Option (List InlineToken × List Char)
  | 0, _ => none
  | fuel+1, s =>
    match inlineElem s with
    | .fail => some ([], s)
    | .ok v r =>
      match manyInlineF fuel r with
      | none => none
      | some (ts, rest) => some (v :: ts, rest)

/-- The `many(inlineElem)` loop finishes within `length + 1` iterations and
computes `manyInline`. -/
theorem manyInlineF_eq : ∀ (n : Nat) (s : List Char), s.length < n →
    manyInlineF n s = some (manyInline s) := by
  intro n
  induction n with
  | zero => intro s h; omega
  | succ m ih =>
    intro s h
    cases hi : inlineElem s with
    | fail => simp [manyInlineF, hi, manyInline_fail hi]
    | ok v r =>
      have hc := inlineElem_consumes hi
      rw [manyInline_ok hi]
      simp [manyInlineF, hi, ih r (by omega)]

mutual

/-- Custom size of one inline token (for the `tokensToRuns` recursion). -/
def tokSize : InlineToken → Nat
  | .text _ => 1
  | .code _ => 1
  | .image _ _ => 1
  | .bold ch => 1 + toksSize ch
  | .italic ch => 1 + toksSize ch
  | .strike ch => 1 + toksSize ch
  | .link ch _ => 1 + toksSize ch

/-- Total size of a token list. -/
def toksSize : List InlineToken → Nat
  | [] => 0
  | t :: ts => tokSize t + toksSize ts

end

/-- `mergeTextTokens`: coalesce adjacent plain-text tokens (the source's
`reduce` over the list, written as direct recursion; the literal fold form
of the `reduce` agrees with it, see `mergeTextTokensFold_eq`). -/
def mergeTextTokens : List InlineToken → List InlineToken
  | .text a :: .text b :: rest => mergeTextTokens (.text (a ++ b) :: rest)
  | t :: rest => t :: mergeTextTokens rest
  | [] => []
termination_by ts => ts.length

/-- Each token has positive size. -/
theorem tokSize_pos (t : InlineToken) : 0 < tokSize t := by
  cases t <;> simp [tokSize]

/-- Merging never increases the total size. -/
theorem toksSize_merge_le : ∀ (n : Nat) (ts : List InlineToken), ts.length ≤ n →
    toksSize (mergeTextTokens ts) ≤ toksSize ts := by
  intro n
  induction n with
  | zero =>
    intro ts h
    have : ts = [] := List.length_eq_zero.1 (by omega)
    subst this
    simp [mergeTextTokens]
  | succ m ih =>
    intro ts h
    cases ts with
    | nil => simp [mergeTextTokens]
    | cons t rest =>
      by_cases htx : ∃ a, t = InlineToken.text a
      · obtain ⟨a, rfl⟩ := htx
        cases rest with
        | nil => simp [mergeTextTokens]
        | cons t2 rest2 =>
          by_cases ht2 : ∃ b, t2 = InlineToken.text b
          · obtain ⟨b, rfl⟩ := ht2
            rw [show mergeTextTokens (.text a :: .text b :: rest2) =
                mergeTextTokens (.text (a ++ b) :: rest2) from by
              simp [mergeTextTokens]]
            have h1 := ih (.text (a ++ b) :: rest2) (by simp at h ⊢; omega)
            simp [toksSize, tokSize] at h1 ⊢
            omega
          · have heq : mergeTextTokens (.text a :: t2 :: rest2) =
                .text a :: mergeTextTokens (t2 :: rest2) := by
              cases t2
              · exact absurd ⟨_, rfl⟩ ht2
              all_goals simp [mergeTextTokens]
            rw [heq]
            have h1 := ih (t2 :: rest2) (by simp at h ⊢; omega)
            simp [toksSize, tokSize] at h1 ⊢
            omega
      · have heq : mergeTextTokens (t :: rest) = t :: mergeTextTokens rest := by
          cases t
          · exact absurd ⟨_, rfl⟩ htx
          all_goals simp [mergeTextTokens]
        rw [heq]
        have h1 := ih rest (by simp at h ⊢; omega)
        simp [toksSize] at h1 ⊢
        omega

end Tinydocx

namespace Tinydocx

/-- `TextOptions` from the source; `none` models an absent key. -/
structure TextOptions where
  align : Option String := none
  bold : Option Bool := none
  italic : Option Bool := none
  underline : Option Bool := none
  strikethrough : Option Bool := none
  code : Option Bool := none
  color : Option String := none
  font : Option String := none
  size : Option Nat := none
deriving DecidableEq, Repr

/-- `Object.keys(opts).length == 0`: no key is present. -/
def TextOptions.noKeys (o : TextOptions) : Bool :=
  o.align.isNone && o.bold.isNone && o.italic.isNone && o.underline.isNone &&
  o.strikethrough.isNone && o.code.isNone && o.color.isNone && o.font.isNone &&
  o.size.isNone

/-- JS truthiness of an optional boolean option. -/
def optTrue : Option Bool → Bool
  | some true => true
  | _ => false

/-- `TextRun` from the source. -/
structure TextRun where
  text : String
  opts : Option TextOptions := none
  link : Option String := none
deriving DecidableEq, Repr

/-- Lexicographic helper for the `tokensToRuns` termination argument. -/
theorem lexNat_of_le {a b i j : Nat} (hab : a ≤ b) (hij : i < j) :
    Prod.Lex (fun x y : Nat => x < y) (fun x y : Nat => x < y) (a, i) (b, j) := by
  rcases Nat.lt_or_ge a b with h | h
  · exact Prod.Lex.left _ _ h
  · have hh : a = b := le_antisymm hab h
    subst hh
    exact Prod.Lex.right _ hij

mutual

/-- `tokensToRuns`: flatten an inline-token tree to styled text runs,
accumulating inherited style attributes; adjacent text tokens are merged
first. -/
def tokensToRuns (tokens : List InlineToken) (inherited : TextOptions := {}) : List TextRun :=
  runsAux (mergeTextTokens tokens) inherited
termination_by (toksSize tokens, 2)
decreasing_by
  exact lexNat_of_le (toksSize_merge_le tokens.length tokens le_rfl) (by omega)

/-- The `flatMap` over the merged token list inside `tokensToRuns`. -/
def runsAux (ts : List InlineToken) (inherited : TextOptions) : List TextRun :=
  match ts with
  | [] => []
  | t :: rest => tokenRuns t inherited ++ runsAux rest inherited
termination_by (toksSize ts, 1)
decreasing_by
  · exact lexNat_of_le (by simp [toksSize]) (by omega)
  · exact Prod.Lex.left _ _ (by have := tokSize_pos t; simp only [toksSize]; omega)

/-- Runs contributed by a single (merged) token. -/
def tokenRuns (t : InlineToken) (inherited : TextOptions) : List TextRun :=
  match t with
  | .text c =>
    [{ text := String.mk c,
       opts := if inherited.noKeys then none else some inherited }]
  | .bold ch => tokensToRuns ch { inherited with bold := some true }
  | .italic ch => tokensToRuns ch { inherited with italic := some true }
  | .strike ch => tokensToRuns ch { inherited with strikethrough := some true }
  | .code c => [{ text := String.mk c, opts := some { inherited with code := some true } }]
  | .link ch href =>
    (tokensToRuns ch { inherited with color := some "#0563C1", underline := some true }).map
      (fun r => { r with link := some (String.mk href) })
  | .image _ _ => []
termination_by (tokSize t, 0)
decreasing_by
  all_goals exact Prod.Lex.left _ _ (by simp [tokSize])

end

end Tinydocx

namespace Tinydocx

mutual

/-- `tokensToPlainText`: flatten an inline-token tree to its plain text
(used for headings; images contribute their alt text). -/
def tokensToPlainText : List InlineToken → List Char
  | [] => []
  | t :: ts => tokenPlainText t ++ tokensToPlainText ts

/-- Plain text of a single token. -/
def tokenPlainText : InlineToken → List Char
  | .text c => c
  | .code c => c
  | .bold ch => tokensToPlainText ch
  | .italic ch => tokensToPlainText ch
  | .strike ch => tokensToPlainText ch
  | .link ch _ => tokensToPlainText ch
  | .image alt _ => alt

end

end Tinydocx

namespace Tinydocx

/-- A list item of the block AST (`ListNodeItem`): inline content plus an
optional nested sub-list (ordered flag and items). -/
inductive ListNodeItem where
  | mk (content : List InlineToken) (nested : Option (Bool × List ListNodeItem))

/-- Content of a list node. -/
def ListNodeItem.content : ListNodeItem → List InlineToken
  | .mk c _ => c

/-- Nested sub-list of a list node. -/
def ListNodeItem.nested : ListNodeItem → Option (Bool × List ListNodeItem)
  | .mk _ n => n

/-- The block token tree (`type BlockToken`). -/
inductive BlockToken where
  | h (level : Nat) (content : List InlineToken)
  | p (content : List InlineToken)
  | pre (code : List Char) (lang : Option (List Char))
  | quote (blocks : List BlockToken)
  | hr
  | ul (items : List ListNodeItem)
  | ol (items : List ListNodeItem)
  | table (head : List (List InlineToken)) (body : List (List (List InlineToken)))

/-- JS `\s`, the full WhiteSpace ∪ LineTerminator class (also the set
removed by `String.prototype.trim`): tab, LF, VT, FF, CR, space, NBSP,
Ogham space mark, the Zs run U+2000–U+200A, LS, PS, NNBSP, MMSP,
ideographic space, and ZWNBSP. -/
def isWs (c : Char) : Bool :=
  c = ' ' || c = '\t' || c = '\n' || c = '\u000b' || c = '\u000c' || c = '\r' ||
  c = '\u00a0' || c = '\u1680' ||
  c = '\u2000' || c = '\u2001' || c = '\u2002' || c = '\u2003' || c = '\u2004' ||
  c = '\u2005' || c = '\u2006' || c = '\u2007' || c = '\u2008' || c = '\u2009' ||
  c = '\u200a' || c = '\u2028' || c = '\u2029' || c = '\u202f' ||
  c = '\u205f' || c = '\u3000' || c = '\ufeff'

/-- JS line terminators: the characters regex `.` refuses and `$` will not
cross without the `m` flag (LF, CR, LS, PS). -/
def isLineTerm (c : Char) : Bool :=
  c = '\n' || c = '\r' || c = '\u2028' || c = '\u2029'

/-- JS `String.prototype.trim`. -/
def trimChars (l : List Char) : List Char :=
  ((l.dropWhile isWs).reverse.dropWhile isWs).reverse

/-- `l.match(/^(\s*)/)[1].length`: leading-whitespace count. -/
def countLeadWs (l : List Char) : Nat := (l.takeWhile isWs).length

/-- Number of leading hash characters. -/
def headingHashes (l : List Char) : Nat := (l.takeWhile (fun c => c = '#')).length

/-- The test `/^#{1,3}\s/.test(line)`. -/
def isHeadingLine (l : List Char) : Bool :=
  let r := headingHashes l
  1 ≤ r && r ≤ 3 &&
    (match (l.drop r).head? with
     | some c => isWs c
     | none => false)

/-- The test `/^(-{3,}|\*{3,}|_{3,})$/.test(line.trim())`. -/
def isHrLine (l : List Char) : Bool :=
  let t := trimChars l
  3 ≤ t.length &&
    (t.all (fun c => c = '-') || t.all (fun c => c = '*') || t.all (fun c => c = '_'))

/-- The test `/^\|.+\|$/.test(line)`. -/
def isTableRow (l : List Char) : Bool :=
  3 ≤ l.length && l.head? = some '|' && l.getLast? = some '|'

/-- The test `/^\|[-:| ]+\|$/.test(line)`: table alignment/separator row. -/
def isTableSep (l : List Char) : Bool :=
  3 ≤ l.length && l.head? = some '|' && l.getLast? = some '|' &&
    ((l.drop 1).dropLast.all (fun c => c = '-' || c = ':' || c = '|' || c = ' '))

/-- `r.slice(1,-1).split('|').map(c => parseInlineTokens(c.trim()))`. -/
def parseRowCells (r : List Char) : List (List InlineToken) :=
  (((r.drop 1).dropLast).splitOn '|').map (fun c => parseInlineTokens (trimChars c))

/-- The test `/^(\s*)[-*]\s/.test(line)`. -/
def isUlMarker (l : List Char) : Bool :=
  match l.dropWhile isWs with
  | c :: d :: _ => (c = '-' || c = '*') && isWs d
  | _ => false

/-- The test `/^(\s*)\d+\.\s/.test(line)`. -/
def isOlMarker (l : List Char) : Bool :=
  let r := l.dropWhile isWs
  let ds := r.takeWhile Char.isDigit
  !ds.isEmpty &&
    (match r.drop ds.length with
     | '.' :: d :: _ => isWs d
     | _ => false)

/-- A line that starts a list item (either marker kind). -/
def isListLine (l : List Char) : Bool := isUlMarker l || isOlMarker l

/-- The test `/^\s*\d+\./.test(line)` (no trailing whitespace required);
selects ordered versus unordered parsing. -/
def olTest (l : List Char) : Bool :=
  let r := l.dropWhile isWs
  let ds := r.takeWhile Char.isDigit
  !ds.isEmpty && (r.drop ds.length).head? = some '.'

/-- `l.replace(/^\s*[-*]\s|^\s*\d+\.\s/, '')`: strip one list marker (the
whole leading-whitespace run, the marker, and one following whitespace
character). -/
def stripListMarker (l : List Char) : List Char :=
  if isUlMarker l then (l.dropWhile isWs).drop 2
  else if isOlMarker l then
    let r := l.dropWhile isWs
    (r.drop ((r.takeWhile Char.isDigit).length + 2))
  else l

/-- The marker regex selected by the `ordered` flag in the list loop. -/
def markerMatches (ordered : Bool) (l : List Char) : Bool :=
  if ordered then isOlMarker l else isUlMarker l

/-- `codeLines.join('\n')`. -/
def joinNl : List (List Char) → List Char
  | [] => []
  | [x] => x
  | x :: xs => x ++ '\n' :: joinNl xs

/-- The inner `parseList` loop of the block parser: collect sibling items at
exactly `indent`, recursively parse more-indented marker lines as the nested
sub-list of the preceding item, skip more-indented non-marker lines, stop at
a lower indent.  The size guard mirrors the source's forward-only cursor;
its `else` branch is unreachable (`parseListLoop_rest_le`). -/
def parseListLoop (ordered : Bool) (indent : Nat) (ls : List (List Char)) :
    List ListNodeItem × List (List Char) :=
  match ls with
  | [] => ([], [])
  | l :: rest =>
    let spaces := countLeadWs l
    if spaces = indent ∧ markerMatches ordered l then
      let content := parseInlineTokens (stripListMarker l)
      match rest with
      | [] => ([ListNodeItem.mk content none], [])
      | next :: tailr =>
        let nextSpaces := countLeadWs next
        if nextSpaces > indent ∧ isListLine next then
          let sub := parseListLoop (olTest next) nextSpaces (next :: tailr)
          if _h : sub.2.length < (l :: next :: tailr).length then
            let cont := parseListLoop ordered indent sub.2
            (ListNodeItem.mk content (some (olTest next, sub.1)) :: cont.1, cont.2)
          else ([ListNodeItem.mk content (some (olTest next, sub.1))], sub.2)
        else
          let cont := parseListLoop ordered indent (next :: tailr)
          (ListNodeItem.mk content none :: cont.1, cont.2)
    else if spaces > indent then
      parseListLoop ordered indent rest
    else ([], ls)
termination_by ls.length
decreasing_by
  all_goals simp only [List.length_cons] at *
  all_goals first
    | omega
    | exact _h

end Tinydocx

namespace Tinydocx

/-- Measure for the block-parser recursion: total characters plus one per
line (the cursor only moves forward, and quote recursion strips two
characters from every collected line). -/
def linesMeasure (ls : List (List Char)) : Nat :=
  ls.foldr (fun l n => l.length + 1 + n) 0

/-- Unfolding of `linesMeasure` on cons. -/
theorem linesMeasure_cons (l : List Char) (ls : List (List Char)) :
    linesMeasure (l :: ls) = l.length + 1 + linesMeasure ls := rfl

/-- `linesMeasure` is monotone with respect to sublists. -/
theorem linesMeasure_sublist_le {a b : List (List Char)} (h : a.Sublist b) :
    linesMeasure a ≤ linesMeasure b := by
  induction h with
  | slnil => exact le_rfl
  | cons x _ ih => simp only [linesMeasure_cons]; omega
  | cons₂ x _ ih => simp only [linesMeasure_cons]; omega

/-- Dropping characters from every line does not increase the measure. -/
theorem linesMeasure_map_drop_le (k : Nat) (ls : List (List Char)) :
    linesMeasure (ls.map (fun x => x.drop k)) ≤ linesMeasure ls := by
  induction ls with
  | nil => simp [linesMeasure]
  | cons x xs ih =>
    simp only [List.map_cons, linesMeasure_cons]
    have := List.length_drop k x
    omega

/-- `i < lines.length && sep.test(lines[i])` for the table branch. -/
def headIsSep (rest : List (List Char)) : Bool :=
  match rest with
  | x :: _ => isTableSep x
  | [] => false

/-- One consumed line strictly decreases the measure. -/
theorem measure_cons_lt (l : List Char) (rest : List (List Char)) :
    linesMeasure rest < linesMeasure (l :: rest) := by
  simp only [linesMeasure_cons]; omega

/-- Measure bound for the fenced-code branch. -/
theorem measure_dropWhile_drop_lt (p : List Char → Bool) (l : List Char)
    (rest : List (List Char)) :
    linesMeasure ((rest.dropWhile p).drop 1) < linesMeasure (l :: rest) := by
  have h2 := linesMeasure_sublist_le
    ((List.drop_sublist 1 (rest.dropWhile p)).trans (List.dropWhile_sublist p))
  simp only [linesMeasure_cons]; omega

/-- Measure bound for the table branch. -/
theorem measure_table_lt (l : List Char) (rest : List (List Char)) :
    linesMeasure ((if headIsSep rest then rest.tail else rest).dropWhile isTableRow) <
      linesMeasure (l :: rest) := by
  have h1 : ((if headIsSep rest then rest.tail else rest).dropWhile isTableRow).Sublist rest := by
    split
    · exact (List.dropWhile_sublist _).trans (List.tail_sublist rest)
    · exact List.dropWhile_sublist _
  have h2 := linesMeasure_sublist_le h1
  simp only [linesMeasure_cons]; omega

/-- Measure bound for the recursive sub-parse of a block quote: every
collected line loses its two-character `"> "` prefix. -/
theorem measure_quote_take_lt (l : List Char) (rest : List (List Char))
    (hq : ['>', ' '].isPrefixOf l = true) :
    linesMeasure (((l :: rest).takeWhile
      (fun x => ['>', ' '].isPrefixOf x)).map (fun x => x.drop 2)) <
      linesMeasure (l :: rest) := by
  rw [List.takeWhile_cons_of_pos (by simpa using hq)]
  simp only [List.map_cons, linesMeasure_cons]
  have h1 := linesMeasure_map_drop_le 2 (rest.takeWhile (fun x => ['>', ' '].isPrefixOf x))
  have h2 := linesMeasure_sublist_le (List.takeWhile_sublist
    (l := rest) (p := fun x => ['>', ' '].isPrefixOf x))
  have h3 : 2 ≤ l.length := by
    have := (List.isPrefixOf_iff_prefix.1 hq).length_le
    simpa using this
  have h4 := List.length_drop 2 l
  omega

/-- Measure bound for the continuation after a block quote. -/
theorem measure_quote_drop_lt (l : List Char) (rest : List (List Char))
    (hq : ['>', ' '].isPrefixOf l = true) :
    linesMeasure ((l :: rest).dropWhile (fun x => ['>', ' '].isPrefixOf x)) <
      linesMeasure (l :: rest) := by
  rw [List.dropWhile_cons_of_pos (by simpa using hq)]
  have h2 := linesMeasure_sublist_le (List.dropWhile_sublist
    (l := rest) (p := fun x => ['>', ' '].isPrefixOf x))
  simp only [linesMeasure_cons]; omega

/-- `parseBlockLines`: the per-line dispatch of the block parser, tried in
source order (blank, fenced code, heading, horizontal rule, block quote,
table, list, paragraph).  The result is `none` when the source throws: the
heading branch asserts `line.match(/^(#{1,3})\s+(.*)$/)!` non-null, but the
match is null — a TypeError — exactly when the text left after the greedy
`\s+` run contains a line terminator (`.` and `$` refuse to cross one
without the `m` flag).  The size guard in the list branch mirrors the
source's forward-only cursor; its `else` branch is unreachable
(`parseBlockLines_list_guard`). -/
def parseBlockLines (ls : List (List Char)) : Option (List BlockToken) :=
  match ls with
  | [] => some []
  | l :: rest =>
    if trimChars l = [] then parseBlockLines rest
    else if [backquote, backquote, backquote].isPrefixOf l then
      let lang := trimChars (l.drop 3)
      let codeLines := rest.takeWhile (fun x => !([backquote, backquote, backquote].isPrefixOf x))
      let after := rest.dropWhile (fun x => !([backquote, backquote, backquote].isPrefixOf x))
      (parseBlockLines (after.drop 1)).map
        (fun bs => BlockToken.pre (joinNl codeLines)
          (if lang = [] then none else some lang) :: bs)
    else if isHeadingLine l then
      let r := headingHashes l
      let t := (l.drop r).dropWhile isWs
      if t.any isLineTerm then none
      else (parseBlockLines rest).map
        (fun bs => BlockToken.h (min r 3) (parseInlineTokens t) :: bs)
    else if isHrLine l then
      (parseBlockLines rest).map (fun bs => BlockToken.hr :: bs)
    else if ['>', ' '].isPrefixOf l then
      let qs := (l :: rest).takeWhile (fun x => ['>', ' '].isPrefixOf x)
      let rest2 := (l :: rest).dropWhile (fun x => ['>', ' '].isPrefixOf x)
      (parseBlockLines (qs.map (fun x => x.drop 2))).bind (fun inner =>
        (parseBlockLines rest2).map (fun bs => BlockToken.quote inner :: bs))
    else if isTableRow l then
      let headR := parseRowCells l
      let rest2 := if headIsSep rest then rest.tail else rest
      let bodyRows := rest2.takeWhile isTableRow
      let rest3 := rest2.dropWhile isTableRow
      (parseBlockLines rest3).map
        (fun bs => BlockToken.table headR (bodyRows.map parseRowCells) :: bs)
    else if isListLine l then
      let result := parseListLoop (olTest l) (countLeadWs l) (l :: rest)
      let tok := if olTest l then BlockToken.ol result.1 else BlockToken.ul result.1
      if _h : linesMeasure result.2 < linesMeasure (l :: rest) then
        (parseBlockLines result.2).map (fun bs => tok :: bs)
      else some [tok]
    else
      (parseBlockLines rest).map (fun bs => BlockToken.p (parseInlineTokens l) :: bs)
termination_by linesMeasure ls
decreasing_by
  all_goals first
    | exact _h
    | apply measure_cons_lt
    | apply measure_dropWhile_drop_lt
    | apply measure_table_lt
    | (apply measure_quote_take_lt; assumption)
    | (apply measure_quote_drop_lt; assumption)

end Tinydocx

namespace Tinydocx

/-- CRLF normalization: `md.replace(/\r\n/g, '\n')`. -/
def normNl : List Char → List Char
  | '\r' :: '\n' :: rest => '\n' :: normNl rest
  | c :: rest => c :: normNl rest
  | [] => []
termination_by l => l.length

/-- `parseMarkdownAST`: normalize newlines, split into lines, block-parse
(`none` when the block parser throws). -/
def parseMarkdownAST (md : String) : Option (List BlockToken) :=
  parseBlockLines ((normNl md.toList).splitOn '\n')

end Tinydocx

namespace Tinydocx

/-- `TableOptions` from the source. -/
structure TableOptions where
  colWidths : Option (List Nat) := none
deriving DecidableEq, Repr

/-- `ImageOptions`: display width/height in inches.  The source uses JS
numbers; the claims only exercise whole values, modelled as naturals. -/
structure ImageOptions where
  width : Nat
  height : Nat
deriving DecidableEq, Repr

/-- `ListItem` of the element model: runs plus an optional nested list. -/
inductive ListItem where
  | mk (runs : List TextRun) (children : Option (Bool × List ListItem))

/-- Runs of a rich-list item. -/
def ListItem.runs : ListItem → List TextRun
  | .mk r _ => r

/-- Nested children of a rich-list item. -/
def ListItem.children : ListItem → Option (Bool × List ListItem)
  | .mk _ c => c

/-- The document-element model (`type DocElement`), consumed by both
renderers. -/
inductive DocElement where
  | heading (text : String) (level : Nat)
  | paragraph (text : String) (opts : Option TextOptions)
  | richParagraph (runs : List TextRun) (align : Option String)
  | text (text : String) (size : Nat) (opts : Option TextOptions)
  | lineBreak
  | horizontalRule
  | list (items : List String) (ordered : Bool)
  | richList (items : List ListItem) (ordered : Bool)
  | table (rows : List (List String)) (opts : Option TableOptions)
  | richTable (rows : List (List (List TextRun))) (opts : Option TableOptions)
  | link (text : String) (url : String) (opts : Option TextOptions) (rId : String)
  | image (data : List Nat) (opts : ImageOptions) (rId : String) (docPrId : Nat)
  | blockquote (runs : List TextRun)
  | codeBlock (code : String) (language : Option String)
  | pageNumber

mutual

/-- `listNodeToListItem`: translate a block-AST list node to the element
model, flattening item content to runs. -/
def listNodeToListItem : ListNodeItem → ListItem
  | .mk content nested =>
    .mk (tokensToRuns content)
      (match nested with
       | some (o, its) => some (o, listNodesToListItems its)
       | none => none)

/-- Map `listNodeToListItem` over a list of nodes. -/
def listNodesToListItems : List ListNodeItem → List ListItem
  | [] => []
  | n :: ns => listNodeToListItem n :: listNodesToListItems ns

end

/-- Runs of a block quote: only paragraph children contribute
(`b.blocks.flatMap(bb => bb.tag === 'p' ? tokensToRuns(bb.content) : [])`). -/
def quoteRuns : List BlockToken → List TextRun
  | [] => []
  | .p content :: bs => tokensToRuns content ++ quoteRuns bs
  | _ :: bs => quoteRuns bs

/-- `blockToElement`: translate one block token to document elements. -/
def blockToElement : BlockToken → List DocElement
  | .h level content => [.heading (String.mk (tokensToPlainText content)) level]
  | .p content => [.richParagraph (tokensToRuns content) none]
  | .pre code lang => [.codeBlock (String.mk code) (lang.map String.mk)]
  | .hr => [.horizontalRule]
  | .quote blocks => [.blockquote (quoteRuns blocks)]
  | .ul items => [.richList (listNodesToListItems items) false]
  | .ol items => [.richList (listNodesToListItems items) true]
  | .table head body =>
    [.richTable ((head.map (fun c => tokensToRuns c)) ::
      body.map (fun row => row.map (fun c => tokensToRuns c))) none]

/-- `astToElements`: translate the whole block list. -/
def astToElements (blocks : List BlockToken) : List DocElement :=
  blocks.flatMap blockToElement

/-- `parseMarkdownToElements` (`none` when the parser throws). -/
def parseMarkdownToElements (md : String) : Option (List DocElement) :=
  (parseMarkdownAST md).map astToElements

end Tinydocx

namespace Tinydocx

/-- One inner iteration of `crc32`:
`crc = (crc >>> 1) ^ (crc & 1 ? 0xedb88320 : 0)`. -/
def crcRound (c : Nat) : Nat :=
  (c >>> 1) ^^^ (if c % 2 = 1 then 0xedb88320 else 0)

/-- `n` iterations of `crcRound` (the inner `for j` loop runs 8). -/
def crcIter : Nat → Nat → Nat
  | 0, c => c
  | n+1, c => crcIter n (crcRound c)

/-- The byte loop of `crc32`; the accumulator starts at `0xffffffff`. -/
def crc32Aux : List Nat → Nat → Nat
  | [], c => c
  | b :: bs, c => crc32Aux bs (crcIter 8 (c ^^^ b))

/-- `crc32` from the source (bit-at-a-time, reflected polynomial
`0xedb88320`).  All intermediate values stay below `2^32` for byte input, so
the JS `>>> 0` coercion is the identity and is omitted. -/
def crc32 (data : List Nat) : Nat :=
  crc32Aux data 0xffffffff ^^^ 0xffffffff

/-- Modelled from the spec: the precomputed 256-entry CRC table of the
standard table-driven algorithm ("standard byte-wise checksum with a
precomputed 256-entry table"). -/
def crcTable : List Nat := (List.range 256).map (crcIter 8)

/-- Modelled from the spec: the byte loop of the reference table-driven
algorithm, `crc = table[(crc ^ byte) & 0xff] ^ (crc >>> 8)`. -/
def crc32RefAux : List Nat → Nat → Nat
  | [], c => c
  | b :: bs, c => crc32RefAux bs ((crcTable.getD ((c ^^^ b) % 256) 0) ^^^ (c >>> 8))

/-- Modelled from the spec: the reference table-driven CRC-32 with the
standard init/final xor. -/
def crc32Ref (data : List Nat) : Nat :=
  crc32RefAux data 0xffffffff ^^^ 0xffffffff

/-- Rearrangement helper for natural xor. -/
theorem natXor_left_comm (a b c : Nat) : a ^^^ (b ^^^ c) = b ^^^ (a ^^^ c) := by
  rw [← Nat.xor_assoc, Nat.xor_comm a b, Nat.xor_assoc]

/-- Cancellation helper for natural xor. -/
theorem natXor_cancel_left (k x : Nat) : k ^^^ (x ^^^ k) = x := by
  rw [Nat.xor_comm x k, ← Nat.xor_assoc, Nat.xor_self, Nat.zero_xor]

/-- `crcRound` is linear over xor (GF(2)-linearity of the LFSR step). -/
theorem crcRound_xor (a b : Nat) :
    crcRound (a ^^^ b) = crcRound a ^^^ crcRound b := by
  unfold crcRound
  have hsh : (a ^^^ b) >>> 1 = (a >>> 1) ^^^ (b >>> 1) := by
    apply Nat.eq_of_testBit_eq
    intro i
    simp [Nat.testBit_shiftRight, Nat.testBit_xor]
  have h0 : ((a ^^^ b).testBit 0) = ((a.testBit 0).xor (b.testBit 0)) :=
    Nat.testBit_xor a b 0
  rw [Nat.testBit_zero, Nat.testBit_zero, Nat.testBit_zero] at h0
  rcases Nat.mod_two_eq_zero_or_one a with ha | ha <;>
    rcases Nat.mod_two_eq_zero_or_one b with hb | hb <;>
    simp [ha, hb] at h0 <;>
    simp [hsh, ha, hb, h0, Nat.xor_assoc, Nat.xor_comm, natXor_left_comm, natXor_cancel_left]

/-- `crcIter` is linear over xor. -/
theorem crcIter_xor (n a b : Nat) :
    crcIter n (a ^^^ b) = crcIter n a ^^^ crcIter n b := by
  induction n generalizing a b with
  | zero => rfl
  | succ m ih => simp [crcIter, crcRound_xor, ih]

/-- On even input one round is a plain shift. -/
theorem crcRound_even {c : Nat} (h : c % 2 = 0) : crcRound c = c / 2 := by
  unfold crcRound
  rw [if_neg (by omega), Nat.xor_zero, Nat.shiftRight_one]

/-- `n` rounds cancel a left shift by `n`. -/
theorem crcIter_shiftLeft (n y : Nat) : crcIter n (y <<< n) = y := by
  induction n generalizing y with
  | zero => simp [crcIter]
  | succ m ih =>
    have heven : (y <<< (m+1)) % 2 = 0 := by
      rw [Nat.shiftLeft_eq, Nat.pow_succ, ← Nat.mul_assoc]
      omega
    rw [crcIter, crcRound_even heven]
    have hdiv : y <<< (m+1) / 2 = y <<< m := by
      rw [Nat.shiftLeft_eq, Nat.shiftLeft_eq, Nat.pow_succ, ← Nat.mul_assoc]
      omega
    rw [hdiv, ih]

/-- Split a natural into its low byte xor its shifted high part. -/
theorem xor_byte_split (x : Nat) : x = (x % 256) ^^^ ((x >>> 8) <<< 8) := by
  apply Nat.eq_of_testBit_eq
  intro i
  have hm : ∀ j : Nat, (x % 256).testBit j = (decide (j < 8) && x.testBit j) := by
    rw [show (256 : Nat) = 2 ^ 8 by norm_num]
    exact fun j => Nat.testBit_mod_two_pow x 8 j
  by_cases hi : i < 8
  · have h1 : (decide (i < 8)) = true := decide_eq_true hi
    have h2 : (decide (8 ≤ i)) = false := decide_eq_false (Nat.not_le.2 hi)
    simp [Nat.testBit_xor, hm, Nat.testBit_shiftLeft, h1, h2]
  · have h1 : (decide (i < 8)) = false := decide_eq_false hi
    have h2 : (decide (8 ≤ i)) = true := decide_eq_true (Nat.not_lt.1 hi)
    have h8 : 8 + (i - 8) = i := by omega
    simp [Nat.testBit_xor, hm, Nat.testBit_shiftLeft,
      Nat.testBit_shiftRight, h1, h2, h8]

/-- Xoring in a byte does not change the high part. -/
theorem xor_byte_shiftRight {b : Nat} (hb : b < 256) (c : Nat) :
    (c ^^^ b) >>> 8 = c >>> 8 := by
  apply Nat.eq_of_testBit_eq
  intro i
  have hbb : b.testBit (8 + i) = false := by
    apply Nat.testBit_lt_two_pow
    calc b < 256 := hb
    _ = 2 ^ 8 := by norm_num
    _ ≤ 2 ^ (8 + i) := Nat.pow_le_pow_right (by omega) (by omega)
  simp [Nat.testBit_shiftRight, Nat.testBit_xor, hbb]

/-- The table lookup is `crcIter 8` on the byte index. -/
theorem crcTable_getD {i : Nat} (hi : i < 256) :
    crcTable.getD i 0 = crcIter 8 i := by
  simp [crcTable, List.getD, List.getElem?_map, List.getElem?_range, hi]

/-- One byte step of the bitwise algorithm equals one table-driven step. -/
theorem crc_step_eq {b : Nat} (hb : b < 256) (c : Nat) :
    crcIter 8 (c ^^^ b) = (crcTable.getD ((c ^^^ b) % 256) 0) ^^^ (c >>> 8) := by
  conv_lhs => rw [xor_byte_split (c ^^^ b)]
  rw [crcIter_xor, crcIter_shiftLeft, crcTable_getD (Nat.mod_lt _ (by omega)),
    xor_byte_shiftRight hb]

/-- The byte loops agree on byte input. -/
theorem crc32Aux_eq_ref (data : List Nat) (hdata : ∀ b ∈ data, b < 256) :
    ∀ c : Nat, crc32Aux data c = crc32RefAux data c := by
  induction data with
  | nil => intro c; rfl
  | cons b bs ih =>
    intro c
    have hb : b < 256 := hdata b (by simp)
    rw [crc32Aux, crc32RefAux, crc_step_eq hb, ih (fun x hx => hdata x (by simp [hx]))]

end Tinydocx

namespace Tinydocx

/-- Two little-endian bytes (`DataView.setUint16(..., true)`). -/
def le16 (n : Nat) : List Nat := [n % 256, n / 256 % 256]

/-- Four little-endian bytes (`DataView.setUint32(..., true)`). -/
def le32 (n : Nat) : List Nat :=
  [n % 256, n / 256 % 256, n / 65536 % 256, n / 16777216 % 256]

/-- UTF-8 encoding of one character (models `TextEncoder`). -/
def utf8EncodeCharNat (c : Char) : List Nat :=
  let v := c.toNat
  if v < 128 then [v]
  else if v < 2048 then [192 ||| (v >>> 6), 128 ||| (v &&& 63)]
  else if v < 65536 then
    [224 ||| (v >>> 12), 128 ||| ((v >>> 6) &&& 63), 128 ||| (v &&& 63)]
  else
    [240 ||| (v >>> 18), 128 ||| ((v >>> 12) &&& 63), 128 ||| ((v >>> 6) &&& 63),
     128 ||| (v &&& 63)]

/-- `new TextEncoder().encode(s)`. -/
def utf8Bytes (s : String) : List Nat := s.data.flatMap utf8EncodeCharNat

/-- One named ZIP entry (`{name, data}`). -/
structure ZipFile where
  name : String
  data : List Nat

/-- Local file header plus entry data, as written by the first loop of
`createZip` (store-only, version 20, no flags, time and date zero). -/
def localEntryBytes (nameBytes data : List Nat) : List Nat :=
  le32 0x04034b50 ++ le16 20 ++ le16 0 ++ le16 0 ++ le16 0 ++ le16 0 ++
  le32 (crc32 data) ++ le32 data.length ++ le32 data.length ++
  le16 nameBytes.length ++ le16 0 ++ nameBytes ++ data

/-- Central-directory record for one entry, as written by the second loop of
`createZip`. -/
def centralEntryBytes (nameBytes data : List Nat) (offset : Nat) : List Nat :=
  le32 0x02014b50 ++ le16 20 ++ le16 20 ++ le16 0 ++ le16 0 ++ le16 0 ++ le16 0 ++
  le32 (crc32 data) ++ le32 data.length ++ le32 data.length ++
  le16 nameBytes.length ++ le16 0 ++ le16 0 ++ le16 0 ++ le16 0 ++ le32 0 ++
  le32 offset ++ nameBytes

/-- End-of-central-directory record: both entry-count fields carry the entry
count, then central-directory size and offset. -/
def eocdBytes (count cdSize cdOffset : Nat) : List Nat :=
  le32 0x06054b50 ++ le16 0 ++ le16 0 ++ le16 count ++ le16 count ++
  le32 cdSize ++ le32 cdOffset ++ le16 0

/-- The entry bookkeeping of `createZip`'s first loop: encoded name, data,
and the byte offset of the entry's local header (each local section is
`30 + nameBytes.length + data.length` bytes). -/
def zipEntries : List ZipFile → Nat → List (List Nat × List Nat × Nat)
  | [], _ => []
  | f :: fs, offset =>
    let nameBytes := utf8Bytes f.name
    (nameBytes, f.data, offset) ::
      zipEntries fs (offset + 30 + nameBytes.length + f.data.length)

/-- All local sections, in input order. -/
def zipLocalBytes (entries : List (List Nat × List Nat × Nat)) : List Nat :=
  entries.flatMap (fun e => localEntryBytes e.1 e.2.1)

/-- The central directory, mirroring each entry. -/
def zipCentralBytes (entries : List (List Nat × List Nat × Nat)) : List Nat :=
  entries.flatMap (fun e => centralEntryBytes e.1 e.2.1 e.2.2)

/-- `createZip`: local sections in input order, then the central directory,
then one end-of-central-directory record carrying the entry count, the
central-directory size, and the central-directory offset. -/
def createZip (files : List ZipFile) : List Nat :=
  let entries := zipEntries files 0
  let localBytes := zipLocalBytes entries
  let centralBytes := zipCentralBytes entries
  localBytes ++ centralBytes ++
    eocdBytes files.length centralBytes.length localBytes.length

/-- Byte offset of the `i`-th entry's local header. -/
def zipLocalOffset (files : List ZipFile) (i : Nat) : Nat :=
  ((files.take i).map
    (fun f => 30 + (utf8Bytes f.name).length + f.data.length)).sum

/-- Little-endian decoding of four bytes. -/
def byteDecode32 : List Nat → Nat
  | [b0, b1, b2, b3] => b0 + 256 * b1 + 65536 * b2 + 16777216 * b3
  | _ => 0

/-- Little-endian decoding of two bytes at an index. -/
def byteDecode16At (l : List Nat) (i : Nat) : Nat :=
  l.getD i 0 + 256 * l.getD (i + 1) 0

/-- Unfolding of `zipLocalOffset` past the first file. -/
theorem zipLocalOffset_cons (f : ZipFile) (fs : List ZipFile) (i : Nat) :
    zipLocalOffset (f :: fs) (i + 1) =
      30 + (utf8Bytes f.name).length + f.data.length + zipLocalOffset fs i := by
  simp [zipLocalOffset, List.take_succ_cons]

/-- The entries of `createZip` are the input files in order, with offsets
equal to the partial sums of the local-section sizes. -/
theorem zipEntries_eq (files : List ZipFile) : ∀ off : Nat,
    zipEntries files off =
      files.mapIdx (fun i f => (utf8Bytes f.name, f.data, off + zipLocalOffset files i)) := by
  induction files with
  | nil => intro off; simp [zipEntries]
  | cons f fs ih =>
    intro off
    rw [zipEntries]
    rw [ih (off + 30 + (utf8Bytes f.name).length + f.data.length), List.mapIdx_cons]
    congr 1
    congr 1
    funext i f'
    simp only [Prod.mk.injEq, true_and]
    rw [zipLocalOffset_cons]
    omega

end Tinydocx

namespace Tinydocx

/-- The local-file-header magic bytes. -/
theorem le32_local_magic : le32 0x04034b50 = [0x50, 0x4B, 0x03, 0x04] := by decide

/-- A local section starts with the magic and carries zero time and date
fields (bytes 10–13). -/
theorem localEntryBytes_head (nameBytes data : List Nat) :
    ∃ r : List Nat, localEntryBytes nameBytes data =
      [0x50, 0x4B, 0x03, 0x04, 20, 0, 0, 0, 0, 0, 0, 0, 0, 0] ++ r := by
  refine ⟨le32 (crc32 data) ++ le32 data.length ++ le32 data.length ++
    le16 nameBytes.length ++ le16 0 ++ nameBytes ++ data, ?_⟩
  simp [localEntryBytes, le16, le32]

/-- A central record starts with the central magic and carries zero time and
date fields (bytes 12–15). -/
theorem centralEntryBytes_head (nameBytes data : List Nat) (offset : Nat) :
    ∃ r : List Nat, centralEntryBytes nameBytes data offset =
      [0x50, 0x4B, 0x01, 0x02, 20, 0, 20, 0, 0, 0, 0, 0, 0, 0, 0, 0] ++ r := by
  refine ⟨le32 (crc32 data) ++ le32 data.length ++ le32 data.length ++
    le16 nameBytes.length ++ le16 0 ++ le16 0 ++ le16 0 ++ le16 0 ++ le32 0 ++
    le32 offset ++ nameBytes, ?_⟩
  simp [centralEntryBytes, le16, le32]

/-- The archive of a non-empty file list begins with the local-file-header
magic `0x50 0x4B 0x03 0x04`. -/
theorem createZip_magic (f : ZipFile) (fs : List ZipFile) :
    (createZip (f :: fs)).take 4 = [0x50, 0x4B, 0x03, 0x04] := by
  unfold createZip zipEntries zipLocalBytes
  obtain ⟨r, hr⟩ := localEntryBytes_head (utf8Bytes f.name) f.data
  simp only [List.flatMap_cons]
  rw [hr]
  simp

/-- Both entry-count fields of the end record decode to the entry count
(for fewer than 2^16 entries). -/
theorem eocd_counts (n cdSize cdOffset : Nat) (hn : n < 65536) :
    byteDecode16At (eocdBytes n cdSize cdOffset) 8 = n ∧
    byteDecode16At (eocdBytes n cdSize cdOffset) 10 = n := by
  constructor <;>
  · simp [eocdBytes, byteDecode16At, le16, le32]
    omega

/-- The offset field of a central record (bytes 42–45) is the little-endian
encoding of the entry's local-header offset. -/
theorem central_offset_field (nameBytes data : List Nat) (offset : Nat) :
    ((centralEntryBytes nameBytes data offset).drop 42).take 4 = le32 offset := by
  simp [centralEntryBytes, le16, le32]

/-- Four little-endian bytes decode to the encoded value below 2^32. -/
theorem byteDecode32_le32 {n : Nat} (hn : n < 4294967296) :
    byteDecode32 (le32 n) = n := by
  simp [le32, byteDecode32]
  omega

end Tinydocx

namespace Tinydocx

/-- `detectImageType`: sniff the image type from leading magic bytes;
out-of-range indexing yields `none` (JS `undefined`), which fails every
comparison, so anything unrecognized — including too-short input — falls
through to `'png'`. -/
def detectImageType (data : List Nat) : String :=
  if data[0]? = some 0x89 ∧ data[1]? = some 0x50 then "png"
  else if data[0]? = some 0xff ∧ data[1]? = some 0xd8 then "jpeg"
  else if data[0]? = some 0x47 ∧ data[1]? = some 0x49 then "gif"
  else if data[0]? = some 0x52 ∧ data[1]? = some 0x49 ∧ data[2]? = some 0x46 ∧
      data[3]? = some 0x46 ∧ data[8]? = some 0x57 ∧ data[9]? = some 0x45 ∧
      data[10]? = some 0x42 ∧ data[11]? = some 0x50 then "webp"
  else "png"

/-- Replace every occurrence of one character by a string. -/
def replaceChar (c : Char) (repl : List Char) (l : List Char) : List Char :=
  l.flatMap (fun x => if x = c then repl else [x])

/-- `escapeXml`: the source's five sequential global replacements
(`&`, `<`, `>`, `"`, `'`), applied in that order. -/
def escapeXml (s : String) : String :=
  String.mk (replaceChar (Char.ofNat 39) (("&apos;").toList)
    (replaceChar '"' (("&quot;").toList)
      (replaceChar '>' (("&gt;").toList)
        (replaceChar '<' (("&lt;").toList)
          (replaceChar '&' (("&amp;").toList) s.toList)))))

/-- Namespace URI `NS.w`. -/
def NSw : String := "http://schemas.openxmlformats.org/wordprocessingml/2006/main"

/-- Namespace URI `NS.r`. -/
def NSr : String := "http://schemas.openxmlformats.org/officeDocument/2006/relationships"

/-- Namespace URI `NS.rel`. -/
def NSrel : String := "http://schemas.openxmlformats.org/package/2006/relationships"

/-- Namespace URI `NS.ct`. -/
def NSct : String := "http://schemas.openxmlformats.org/package/2006/content-types"

/-- Namespace URI `NS.wp`. -/
def NSwp : String := "http://schemas.openxmlformats.org/drawingml/2006/wordprocessingDrawing"

/-- Namespace URI `NS.a`. -/
def NSa : String := "http://schemas.openxmlformats.org/drawingml/2006/main"

/-- Namespace URI `NS.pic`. -/
def NSpic : String := "http://schemas.openxmlformats.org/drawingml/2006/picture"

/-- Namespace URI `NS.manifest`. -/
def NSmanifest : String := "urn:oasis:names:tc:opendocument:xmlns:manifest:1.0"

/-- Namespace URI `NS.office`. -/
def NSoffice : String := "urn:oasis:names:tc:opendocument:xmlns:office:1.0"

/-- Namespace URI `NS.text`. -/
def NStext : String := "urn:oasis:names:tc:opendocument:xmlns:text:1.0"

/-- Namespace URI `NS.style`. -/
def NSstyle : String := "urn:oasis:names:tc:opendocument:xmlns:style:1.0"

/-- Namespace URI `NS.fo`. -/
def NSfo : String := "urn:oasis:names:tc:opendocument:xmlns:xsl-fo-compatible:1.0"

/-- Namespace URI `NS.table`. -/
def NStable : String := "urn:oasis:names:tc:opendocument:xmlns:table:1.0"

/-- Namespace URI `NS.xlink`. -/
def NSxlink : String := "http://www.w3.org/1999/xlink"

/-- JS truthiness of an optional string (empty string is falsy). -/
def strTruthy : Option String → Bool
  | some s => !s.isEmpty
  | none => false

/-- JS truthiness of an optional number (zero is falsy). -/
def natTruthy : Option Nat → Bool
  | some n => decide (n ≠ 0)
  | none => false

/-- Remove the first occurrence of a character (`String.replace('#','')`). -/
def removeFirst (ch : Char) : List Char → List Char
  | [] => []
  | x :: xs => if x = ch then xs else x :: removeFirst ch xs

/-- `buildDocxRunProps(opts?, size?)`: assemble the `<w:rPr>` run-property
markup from the style flags. -/
def buildDocxRunProps (opts : Option TextOptions) (size : Option Nat) : String :=
  let codeOn := optTrue (opts.bind TextOptions.code)
  let font : Option String :=
    if codeOn then some "Courier New" else opts.bind TextOptions.font
  let s1 :=
    if strTruthy font then
      "<w:rFonts w:ascii=\"" ++ font.getD "" ++ "\" w:hAnsi=\"" ++ font.getD "" ++ "\"/>"
    else ""
  let sz : Option Nat := if natTruthy size then size else opts.bind TextOptions.size
  let s2 :=
    if natTruthy sz then
      "<w:sz w:val=\"" ++ toString (sz.getD 0 * 2) ++ "\"/><w:szCs w:val=\"" ++
        toString (sz.getD 0 * 2) ++ "\"/>"
    else ""
  let s3 := if optTrue (opts.bind TextOptions.bold) then "<w:b/>" else ""
  let s4 := if optTrue (opts.bind TextOptions.italic) then "<w:i/>" else ""
  let s5 := if optTrue (opts.bind TextOptions.underline) then "<w:u w:val=\"single\"/>" else ""
  let s6 := if optTrue (opts.bind TextOptions.strikethrough) then "<w:strike/>" else ""
  let s7 :=
    if codeOn then "<w:shd w:val=\"clear\" w:color=\"auto\" w:fill=\"E8E8E8\"/>" else ""
  let s8 :=
    if strTruthy (opts.bind TextOptions.color) then
      "<w:color w:val=\"" ++
        String.mk (removeFirst '#' ((opts.bind TextOptions.color).getD "").toList) ++ "\"/>"
    else ""
  let rPr := s1 ++ s2 ++ s3 ++ s4 ++ s5 ++ s6 ++ s7 ++ s8
  if rPr.isEmpty then "" else "<w:rPr>" ++ rPr ++ "</w:rPr>"

/-- `getAlignment`: map the alignment option to the `w:jc` value. -/
def getAlignment (align : Option String) : String :=
  if align = some "center" then "center"
  else if align = some "right" then "right"
  else if align = some "justify" then "both"
  else "left"

/-- `parseInline`: inline-parse a line of text straight to runs. -/
def parseInline (text : String) : List TextRun :=
  tokensToRuns (parseInlineTokens text.toList)

/-- The fixed half-point size table of the DOCX heading renderer
(`SIZES = {1: 48, 2: 36, 3: 28}`; only levels 1–3 exist). -/
def headingSz : Nat → Nat
  | 1 => 48
  | 2 => 36
  | 3 => 28
  | _ => 0

/-- One rendered text run (`<w:r>…</w:r>`) of the DOCX body. -/
def docxRunXml (run : TextRun) : String :=
  "<w:r>" ++ buildDocxRunProps run.opts none ++ "<w:t>" ++ escapeXml run.text ++
    "</w:t></w:r>"

/-- The `buildListItems` closure of the DOCX renderer: each item becomes a
numbered paragraph at the given `ilvl`, and its nested child list follows at
`level + 1`. -/
def docxListItems (ordered : Bool) (level : Nat) : List ListItem → String
  | [] => ""
  | .mk runs children :: rest =>
    let numId : Nat := if ordered then 2 else 1
    "<w:p><w:pPr><w:numPr><w:ilvl w:val=\"" ++ toString level ++
      "\"/><w:numId w:val=\"" ++ toString numId ++ "\"/></w:numPr></w:pPr>" ++
      String.join (runs.map docxRunXml) ++ "</w:p>" ++
      (match children with
       | some (o, its) => docxListItems o (level + 1) its
       | none => "") ++
      docxListItems ordered level rest

/-- The fixed table-border preamble shared by both table renderers. -/
def docxTablePre : String :=
  "<w:tbl><w:tblPr><w:tblW w:w=\"0\" w:type=\"auto\"/><w:tblBorders>" ++
  "<w:top w:val=\"single\" w:sz=\"4\" w:color=\"auto\"/><w:left w:val=\"single\" w:sz=\"4\" w:color=\"auto\"/>" ++
  "<w:bottom w:val=\"single\" w:sz=\"4\" w:color=\"auto\"/><w:right w:val=\"single\" w:sz=\"4\" w:color=\"auto\"/>" ++
  "<w:insideH w:val=\"single\" w:sz=\"4\" w:color=\"auto\"/><w:insideV w:val=\"single\" w:sz=\"4\" w:color=\"auto\"/>" ++
  "</w:tblBorders></w:tblPr>"

/-- Optional `<w:tblGrid>` from the column widths. -/
def docxTableGrid (opts : Option TableOptions) : String :=
  match opts.bind TableOptions.colWidths with
  | some ws =>
    "<w:tblGrid>" ++
      String.join (ws.map (fun w => "<w:gridCol w:w=\"" ++ toString w ++ "\"/>")) ++
      "</w:tblGrid>"
  | none => ""

/-- Optional `<w:tcPr>` for cell `i` (`el.opts?.colWidths?.[i]`, with JS
truthiness on the width). -/
def docxCellPr (opts : Option TableOptions) (i : Nat) : String :=
  if natTruthy ((opts.bind TableOptions.colWidths).bind (fun ws => ws[i]?)) then
    "<w:tcPr><w:tcW w:w=\"" ++
      toString (((opts.bind TableOptions.colWidths).bind (fun ws => ws[i]?)).getD 0) ++
      "\" w:type=\"dxa\"/></w:tcPr>"
  else ""

/-- Rendering of a single document element into the DOCX body. -/
def docxElementXml : DocElement → String
  | .heading text level =>
    "<w:p><w:pPr><w:pStyle w:val=\"Heading" ++ toString level ++
      "\"/></w:pPr><w:r><w:rPr><w:b/><w:sz w:val=\"" ++ toString (headingSz level) ++
      "\"/><w:szCs w:val=\"" ++ toString (headingSz level) ++ "\"/></w:rPr><w:t>" ++
      escapeXml text ++ "</w:t></w:r></w:p>"
  | .paragraph text opts =>
    "<w:p><w:pPr><w:jc w:val=\"" ++ getAlignment (opts.bind TextOptions.align) ++
      "\"/></w:pPr><w:r>" ++ buildDocxRunProps opts none ++ "<w:t>" ++ escapeXml text ++
      "</w:t></w:r></w:p>"
  | .text text size opts =>
    "<w:p><w:pPr><w:jc w:val=\"" ++ getAlignment (opts.bind TextOptions.align) ++
      "\"/></w:pPr><w:r>" ++ buildDocxRunProps opts (some size) ++ "<w:t>" ++
      escapeXml text ++ "</w:t></w:r></w:p>"
  | .lineBreak => "<w:p/>"
  | .horizontalRule =>
    "<w:p><w:pPr><w:pBdr><w:bottom w:val=\"single\" w:sz=\"6\" w:space=\"1\" w:color=\"auto\"/></w:pBdr></w:pPr></w:p>"
  | .list items ordered =>
    let numId : Nat := if ordered then 2 else 1
    String.join (items.map (fun item =>
      "<w:p><w:pPr><w:numPr><w:ilvl w:val=\"0\"/><w:numId w:val=\"" ++ toString numId ++
        "\"/></w:numPr></w:pPr><w:r><w:t>" ++ escapeXml item ++ "</w:t></w:r></w:p>"))
  | .table rows opts =>
    docxTablePre ++ docxTableGrid opts ++
      String.join (rows.map (fun row =>
        "<w:tr>" ++
          String.join (row.mapIdx (fun i cell =>
            "<w:tc>" ++ docxCellPr opts i ++ "<w:p><w:r><w:t>" ++ escapeXml cell ++
              "</w:t></w:r></w:p></w:tc>")) ++
          "</w:tr>")) ++
      "</w:tbl>"
  | .link text _ opts rId =>
    let linkOpts : TextOptions :=
      { (opts.getD {}) with
        color := some (if strTruthy (opts.bind TextOptions.color) then
          (opts.bind TextOptions.color).getD "" else "0563C1"),
        underline := some true }
    "<w:p><w:hyperlink r:id=\"" ++ rId ++ "\"><w:r>" ++
      buildDocxRunProps (some linkOpts) none ++ "<w:t>" ++ escapeXml text ++
      "</w:t></w:r></w:hyperlink></w:p>"
  | .image _ opts rId docPrId =>
    let cx := opts.width * 914400
    let cy := opts.height * 914400
    "<w:p><w:r><w:drawing><wp:inline distT=\"0\" distB=\"0\" distL=\"0\" distR=\"0\" xmlns:wp=\"" ++
      NSwp ++ "\"><wp:extent cx=\"" ++ toString cx ++ "\" cy=\"" ++ toString cy ++
      "\"/><wp:docPr id=\"" ++ toString docPrId ++ "\" name=\"Image" ++ toString docPrId ++
      "\"/><a:graphic xmlns:a=\"" ++ NSa ++ "\"><a:graphicData uri=\"" ++ NSpic ++
      "\"><pic:pic xmlns:pic=\"" ++ NSpic ++ "\"><pic:nvPicPr><pic:cNvPr id=\"" ++
      toString docPrId ++ "\" name=\"Image" ++ toString docPrId ++
      "\"/><pic:cNvPicPr/></pic:nvPicPr><pic:blipFill><a:blip r:embed=\"" ++ rId ++
      "\" xmlns:r=\"" ++ NSr ++
      "\"/><a:stretch><a:fillRect/></a:stretch></pic:blipFill><pic:spPr><a:xfrm><a:off x=\"0\" y=\"0\"/><a:ext cx=\"" ++
      toString cx ++ "\" cy=\"" ++ toString cy ++
      "\"/></a:xfrm><a:prstGeom prst=\"rect\"><a:avLst/></a:prstGeom></pic:spPr></pic:pic></a:graphicData></a:graphic></wp:inline></w:drawing></w:r></w:p>"
  | .pageNumber =>
    "<w:p><w:r><w:fldChar w:fldCharType=\"begin\"/></w:r><w:r><w:instrText xml:space=\"preserve\"> PAGE </w:instrText></w:r><w:r><w:fldChar w:fldCharType=\"separate\"/></w:r><w:r><w:t>1</w:t></w:r><w:r><w:fldChar w:fldCharType=\"end\"/></w:r></w:p>"
  | .richParagraph runs align =>
    "<w:p><w:pPr><w:jc w:val=\"" ++ getAlignment align ++ "\"/></w:pPr>" ++
      String.join (runs.map docxRunXml) ++ "</w:p>"
  | .richList items ordered => docxListItems ordered 0 items
  | .richTable rows opts =>
    docxTablePre ++ docxTableGrid opts ++
      String.join (rows.map (fun row =>
        "<w:tr>" ++
          String.join (row.mapIdx (fun i cell =>
            "<w:tc>" ++ docxCellPr opts i ++ "<w:p>" ++
              String.join (cell.map docxRunXml) ++ "</w:p></w:tc>")) ++
          "</w:tr>")) ++
      "</w:tbl>"
  | .blockquote runs =>
    "<w:p><w:pPr><w:ind w:left=\"720\"/><w:pBdr><w:left w:val=\"single\" w:sz=\"18\" w:space=\"4\" w:color=\"CCCCCC\"/></w:pBdr></w:pPr>" ++
      String.join (runs.map (fun run =>
        let bqOpts : TextOptions :=
          { (run.opts.getD {}) with
            color := some (if strTruthy (run.opts.bind TextOptions.color) then
              (run.opts.bind TextOptions.color).getD "" else "#666666") }
        "<w:r>" ++ buildDocxRunProps (some bqOpts) none ++ "<w:t>" ++
          escapeXml run.text ++ "</w:t></w:r>")) ++
      "</w:p>"
  | .codeBlock code _ =>
    String.join ((code.splitOn "\n").map (fun line =>
      "<w:p><w:pPr><w:shd w:val=\"clear\" w:color=\"auto\" w:fill=\"F5F5F5\"/></w:pPr>" ++
        "<w:r><w:rPr><w:rFonts w:ascii=\"Courier New\" w:hAnsi=\"Courier New\"/></w:rPr><w:t xml:space=\"preserve\">" ++
        escapeXml line ++ "</w:t></w:r></w:p>"))

/-- `buildDocxBody`: concatenate the per-element markup in order. -/
def buildDocxBody (elements : List DocElement) : String :=
  String.join (elements.map docxElementXml)

end Tinydocx

namespace Tinydocx

/-- `generateDocxDocument` (markdown path: no header/footer references). -/
def generateDocxDocument (elements : List DocElement) (headerRId footerRId : Option String) :
    String :=
  let body := buildDocxBody elements
  let sectPr := "<w:sectPr>" ++
    (match headerRId with
     | some r => "<w:headerReference w:type=\"default\" r:id=\"" ++ r ++ "\"/>"
     | none => "") ++
    (match footerRId with
     | some r => "<w:footerReference w:type=\"default\" r:id=\"" ++ r ++ "\"/>"
     | none => "") ++
    "<w:pgSz w:w=\"12240\" w:h=\"15840\"/><w:pgMar w:top=\"1440\" w:right=\"1440\" w:bottom=\"1440\" w:left=\"1440\" w:header=\"720\" w:footer=\"720\"/></w:sectPr>"
  "<?xml version=\"1.0\" encoding=\"UTF-8\" standalone=\"yes\"?>\n<w:document xmlns:w=\"" ++
    NSw ++ "\" xmlns:r=\"" ++ NSr ++ "\">\n<w:body>\n" ++ body ++ "\n" ++ sectPr ++
    "\n</w:body>\n</w:document>"

/-- `generateDocxStyles` (fixed stylesheet; heading styles 1–3 only). -/
def generateDocxStyles : String :=
  "<?xml version=\"1.0\" encoding=\"UTF-8\" standalone=\"yes\"?>\n<w:styles xmlns:w=\"" ++
  NSw ++ "\">\n" ++
  "<w:docDefaults><w:rPrDefault><w:rPr><w:rFonts w:ascii=\"Calibri\" w:hAnsi=\"Calibri\"/><w:sz w:val=\"22\"/></w:rPr></w:rPrDefault></w:docDefaults>\n" ++
  "<w:style w:type=\"paragraph\" w:styleId=\"Normal\"><w:name w:val=\"Normal\"/></w:style>\n" ++
  "<w:style w:type=\"paragraph\" w:styleId=\"Heading1\"><w:name w:val=\"Heading 1\"/><w:basedOn w:val=\"Normal\"/><w:rPr><w:b/><w:sz w:val=\"48\"/></w:rPr></w:style>\n" ++
  "<w:style w:type=\"paragraph\" w:styleId=\"Heading2\"><w:name w:val=\"Heading 2\"/><w:basedOn w:val=\"Normal\"/><w:rPr><w:b/><w:sz w:val=\"36\"/></w:rPr></w:style>\n" ++
  "<w:style w:type=\"paragraph\" w:styleId=\"Heading3\"><w:name w:val=\"Heading 3\"/><w:basedOn w:val=\"Normal\"/><w:rPr><w:b/><w:sz w:val=\"28\"/></w:rPr></w:style>\n" ++
  "</w:styles>"

/-- `generateDocxNumbering` (two fixed abstract numbering definitions). -/
def generateDocxNumbering : String :=
  "<?xml version=\"1.0\" encoding=\"UTF-8\" standalone=\"yes\"?>\n<w:numbering xmlns:w=\"" ++
  NSw ++ "\">\n" ++
  "<w:abstractNum w:abstractNumId=\"0\"><w:lvl w:ilvl=\"0\"><w:start w:val=\"1\"/><w:numFmt w:val=\"bullet\"/><w:lvlText w:val=\"•\"/><w:lvlJc w:val=\"left\"/><w:pPr><w:ind w:left=\"720\" w:hanging=\"360\"/></w:pPr></w:lvl></w:abstractNum>\n" ++
  "<w:abstractNum w:abstractNumId=\"1\"><w:lvl w:ilvl=\"0\"><w:start w:val=\"1\"/><w:numFmt w:val=\"decimal\"/><w:lvlText w:val=\"%1.\"/><w:lvlJc w:val=\"left\"/><w:pPr><w:ind w:left=\"720\" w:hanging=\"360\"/></w:pPr></w:lvl></w:abstractNum>\n" ++
  "<w:num w:numId=\"1\"><w:abstractNumId w:val=\"0\"/></w:num>\n" ++
  "<w:num w:numId=\"2\"><w:abstractNumId w:val=\"1\"/></w:num>\n" ++
  "</w:numbering>"

/-- Order-preserving de-duplication (`Array.from(new Set(...))`). -/
def dedupFirst : List String → List String
  | [] => []
  | x :: xs => x :: dedupFirst (xs.filter (fun y => y ≠ x))
termination_by l => l.length
decreasing_by
  have := List.length_filter_le (fun y => y ≠ x) xs
  simp only [List.length_cons]
  omega

/-- `generateDocxContentTypes`. -/
def generateDocxContentTypes (hasLists hasHeader hasFooter : Bool)
    (imageExts : List String) : String :=
  "<?xml version=\"1.0\" encoding=\"UTF-8\" standalone=\"yes\"?>\n<Types xmlns=\"" ++
  NSct ++ "\">\n" ++
  "<Default Extension=\"rels\" ContentType=\"application/vnd.openxmlformats-package.relationships+xml\"/>\n" ++
  "<Default Extension=\"xml\" ContentType=\"application/xml\"/>" ++
  String.join ((dedupFirst imageExts).map (fun ext =>
    let mime := if ext = "jpeg" then "image/jpeg"
      else if ext = "gif" then "image/gif" else "image/png"
    "<Default Extension=\"" ++ ext ++ "\" ContentType=\"" ++ mime ++ "\"/>")) ++
  "<Override PartName=\"/word/document.xml\" ContentType=\"application/vnd.openxmlformats-officedocument.wordprocessingml.document.main+xml\"/>\n" ++
  "<Override PartName=\"/word/styles.xml\" ContentType=\"application/vnd.openxmlformats-officedocument.wordprocessingml.styles+xml\"/>" ++
  (if hasLists then
    "<Override PartName=\"/word/numbering.xml\" ContentType=\"application/vnd.openxmlformats-officedocument.wordprocessingml.numbering+xml\"/>"
  else "") ++
  (if hasHeader then
    "<Override PartName=\"/word/header1.xml\" ContentType=\"application/vnd.openxmlformats-officedocument.wordprocessingml.header+xml\"/>"
  else "") ++
  (if hasFooter then
    "<Override PartName=\"/word/footer1.xml\" ContentType=\"application/vnd.openxmlformats-officedocument.wordprocessingml.footer+xml\"/>"
  else "") ++
  "</Types>"

/-- `generateDocxRels` (markdown path passes no hyperlinks or images). -/
def generateDocxRels (hasLists hasHeader hasFooter : Bool)
    (hyperlinks : List (String × String)) (images : List (String × String))
    (imageOffset : Nat) : String :=
  "<?xml version=\"1.0\" encoding=\"UTF-8\" standalone=\"yes\"?>\n<Relationships xmlns=\"" ++
  NSrel ++ "\">\n" ++
  "<Relationship Id=\"rId1\" Type=\"" ++ NSr ++ "/styles\" Target=\"styles.xml\"/>" ++
  (if hasLists then
    "<Relationship Id=\"rId2\" Type=\"" ++ NSr ++ "/numbering\" Target=\"numbering.xml\"/>"
  else "") ++
  (if hasHeader then
    "<Relationship Id=\"rIdHeader\" Type=\"" ++ NSr ++ "/header\" Target=\"header1.xml\"/>"
  else "") ++
  (if hasFooter then
    "<Relationship Id=\"rIdFooter\" Type=\"" ++ NSr ++ "/footer\" Target=\"footer1.xml\"/>"
  else "") ++
  String.join (hyperlinks.map (fun link =>
    "<Relationship Id=\"" ++ link.2 ++ "\" Type=\"" ++ NSr ++ "/hyperlink\" Target=\"" ++
      escapeXml link.1 ++ "\" TargetMode=\"External\"/>")) ++
  String.join (images.mapIdx (fun i img =>
    "<Relationship Id=\"" ++ img.1 ++ "\" Type=\"" ++ NSr ++ "/image\" Target=\"media/image" ++
      toString (imageOffset + i + 1) ++ "." ++ img.2 ++ "\"/>")) ++
  "</Relationships>"

/-- The fixed `_rels/.rels` part (`DOCX_RELS`). -/
def DOCX_RELS : String :=
  "<?xml version=\"1.0\" encoding=\"UTF-8\" standalone=\"yes\"?>\n<Relationships xmlns=\"" ++
  NSrel ++ "\">\n" ++
  "<Relationship Id=\"rId1\" Type=\"" ++ NSr ++ "/officeDocument\" Target=\"word/document.xml\"/>\n" ++
  "</Relationships>"

/-- `markdownToDocx`: parse, translate, render the five (or six) fixed parts,
and assemble the ZIP archive (`none` when the parser throws). -/
def markdownToDocx (md : String) : Option (List Nat) :=
  (parseMarkdownToElements md).map (fun elements =>
    let hasLists := elements.any (fun el =>
      match el with
      | .list _ _ => true
      | .richList _ _ => true
      | _ => false)
    let files : List ZipFile :=
      [⟨"[Content_Types].xml", utf8Bytes (generateDocxContentTypes hasLists false false [])⟩,
       ⟨"_rels/.rels", utf8Bytes DOCX_RELS⟩,
       ⟨"word/_rels/document.xml.rels", utf8Bytes (generateDocxRels hasLists false false [] [] 0)⟩,
       ⟨"word/document.xml", utf8Bytes (generateDocxDocument elements none none)⟩,
       ⟨"word/styles.xml", utf8Bytes generateDocxStyles⟩] ++
      (if hasLists then [⟨"word/numbering.xml", utf8Bytes generateDocxNumbering⟩] else [])
    createZip files)

end Tinydocx

namespace Tinydocx

/-- `ODT_MIMETYPE`. -/
def ODT_MIMETYPE : String := "application/vnd.oasis.opendocument.text"

/-- `ODT_MANIFEST`. -/
def ODT_MANIFEST : String :=
  "<?xml version=\"1.0\" encoding=\"UTF-8\"?>\n<manifest:manifest xmlns:manifest=\"" ++
  NSmanifest ++ "\" manifest:version=\"1.2\">\n" ++
  "<manifest:file-entry manifest:full-path=\"/\" manifest:media-type=\"application/vnd.oasis.opendocument.text\"/>\n" ++
  "<manifest:file-entry manifest:full-path=\"content.xml\" manifest:media-type=\"text/xml\"/>\n" ++
  "<manifest:file-entry manifest:full-path=\"styles.xml\" manifest:media-type=\"text/xml\"/>\n" ++
  "</manifest:manifest>"

/-- `ODT_STYLES` (fixed stylesheet; ODT heading point sizes 24/18/14). -/
def ODT_STYLES : String :=
  "<?xml version=\"1.0\" encoding=\"UTF-8\"?>\n<office:document-styles xmlns:office=\"" ++
  NSoffice ++ "\" xmlns:style=\"" ++ NSstyle ++ "\" xmlns:fo=\"" ++ NSfo ++
  "\" office:version=\"1.2\">\n<office:styles>\n" ++
  "<style:style style:name=\"Standard\" style:family=\"paragraph\"/>\n" ++
  "<style:style style:name=\"Heading1\" style:family=\"paragraph\"><style:text-properties fo:font-size=\"24pt\" fo:font-weight=\"bold\"/></style:style>\n" ++
  "<style:style style:name=\"Heading2\" style:family=\"paragraph\"><style:text-properties fo:font-size=\"18pt\" fo:font-weight=\"bold\"/></style:style>\n" ++
  "<style:style style:name=\"Heading3\" style:family=\"paragraph\"><style:text-properties fo:font-size=\"14pt\" fo:font-weight=\"bold\"/></style:style>\n" ++
  "</office:styles>\n</office:document-styles>"

/-- `buildOdtStyle(name, opts?, size?)`: one automatic paragraph style. -/
def buildOdtStyle (name : String) (opts : Option TextOptions) (size : Option Nat) : String :=
  let codeOn := optTrue (opts.bind TextOptions.code)
  let font : Option String :=
    if codeOn then some "Courier New" else opts.bind TextOptions.font
  let t1 := if strTruthy font then " style:font-name=\"" ++ font.getD "" ++ "\"" else ""
  let sz : Option Nat := if natTruthy size then size else opts.bind TextOptions.size
  let t2 := if natTruthy sz then " fo:font-size=\"" ++ toString (sz.getD 0) ++ "pt\"" else ""
  let t3 := if optTrue (opts.bind TextOptions.bold) then " fo:font-weight=\"bold\"" else ""
  let t4 := if optTrue (opts.bind TextOptions.italic) then " fo:font-style=\"italic\"" else ""
  let t5 := if optTrue (opts.bind TextOptions.underline) then
    " style:text-underline-style=\"solid\"" else ""
  let t6 := if optTrue (opts.bind TextOptions.strikethrough) then
    " style:text-line-through-style=\"solid\"" else ""
  let t7 := if codeOn then " fo:background-color=\"#E8E8E8\"" else ""
  let t8 := if strTruthy (opts.bind TextOptions.color) then
    " fo:color=\"" ++ (opts.bind TextOptions.color).getD "" ++ "\"" else ""
  let textProps := t1 ++ t2 ++ t3 ++ t4 ++ t5 ++ t6 ++ t7 ++ t8
  let pProps := if strTruthy (opts.bind TextOptions.align) then
    "<style:paragraph-properties fo:text-align=\"" ++
      (opts.bind TextOptions.align).getD "" ++ "\"/>" else ""
  "<style:style style:name=\"" ++ name ++ "\" style:family=\"paragraph\">" ++ pProps ++
    "<style:text-properties" ++ textProps ++ "/></style:style>"

/-- `buildOdtTextStyle(name, opts?)`: one automatic text (span) style. -/
def buildOdtTextStyle (name : String) (opts : Option TextOptions) : String :=
  let codeOn := optTrue (opts.bind TextOptions.code)
  let font : Option String :=
    if codeOn then some "Courier New" else opts.bind TextOptions.font
  let t1 := if strTruthy font then " style:font-name=\"" ++ font.getD "" ++ "\"" else ""
  let t2 := if natTruthy (opts.bind TextOptions.size) then
    " fo:font-size=\"" ++ toString ((opts.bind TextOptions.size).getD 0) ++ "pt\"" else ""
  let t3 := if optTrue (opts.bind TextOptions.bold) then " fo:font-weight=\"bold\"" else ""
  let t4 := if optTrue (opts.bind TextOptions.italic) then " fo:font-style=\"italic\"" else ""
  let t5 := if optTrue (opts.bind TextOptions.underline) then
    " style:text-underline-style=\"solid\"" else ""
  let t6 := if optTrue (opts.bind TextOptions.strikethrough) then
    " style:text-line-through-style=\"solid\"" else ""
  let t7 := if codeOn then " fo:background-color=\"#E8E8E8\"" else ""
  let t8 := if strTruthy (opts.bind TextOptions.color) then
    " fo:color=\"" ++ (opts.bind TextOptions.color).getD "" ++ "\"" else ""
  "<style:style style:name=\"" ++ name ++ "\" style:family=\"text\"><style:text-properties" ++
    t1 ++ t2 ++ t3 ++ t4 ++ t5 ++ t6 ++ t7 ++ t8 ++ "/></style:style>"

/-- Accumulator of `generateOdtContent`: the body markup, the automatic-style
counter, and the collected automatic styles. -/
structure OdtAcc where
  body : String
  styleCount : Nat
  styles : List String

/-- Whether a run gets its own automatic text style
(`run.opts?.bold || italic || code || underline || strikethrough || color`). -/
def odtRunStyled (run : TextRun) : Bool :=
  optTrue (run.opts.bind TextOptions.bold) || optTrue (run.opts.bind TextOptions.italic) ||
  optTrue (run.opts.bind TextOptions.code) || optTrue (run.opts.bind TextOptions.underline) ||
  optTrue (run.opts.bind TextOptions.strikethrough) ||
  strTruthy (run.opts.bind TextOptions.color)

/-- Append one run to the ODT body (a styled span or plain escaped text). -/
def odtRunSpan (acc : OdtAcc) (run : TextRun) : OdtAcc :=
  if odtRunStyled run then
    let styleName := "T" ++ toString (acc.styleCount + 1)
    { body := acc.body ++ "<text:span text:style-name=\"" ++ styleName ++ "\">" ++
        escapeXml run.text ++ "</text:span>",
      styleCount := acc.styleCount + 1,
      styles := acc.styles ++ [buildOdtTextStyle styleName run.opts] }
  else { acc with body := acc.body ++ escapeXml run.text }

mutual

/-- Size of one rich-list item (for the ODT list recursion). -/
def liSize : ListItem → Nat
  | .mk _ none => 1
  | .mk _ (some (_, its)) => 1 + lisSize its

/-- Size of a rich-list item list. -/
def lisSize : List ListItem → Nat
  | [] => 0
  | i :: is => liSize i + lisSize is

end

/-- Each list item has positive size. -/
theorem liSize_pos (i : ListItem) : 0 < liSize i := by
  rcases i with ⟨r, _ | ⟨o, its⟩⟩ <;> simp [liSize]

/-- The tail of an item list is strictly smaller. -/
theorem lisSize_cons_lt (i : ListItem) (rest : List ListItem) :
    lisSize rest < lisSize (i :: rest) := by
  have := liSize_pos i
  simp [lisSize]
  omega

/-- A nested sub-list is strictly smaller than the list carrying it. -/
theorem lisSize_nested_lt (runs : List TextRun) (o : Bool) (its : List ListItem)
    (rest : List ListItem) :
    lisSize its < lisSize (ListItem.mk runs (some (o, its)) :: rest) := by
  simp [lisSize, liSize]
  omega

mutual

/-- The `buildOdtList` closure: wrap the items of one (sub-)list in a
`<text:list>` element. -/
def odtList (ordered : Bool) (items : List ListItem) (acc : OdtAcc) : OdtAcc :=
  let acc1 := { acc with body := acc.body ++ "<text:list text:style-name=\"" ++
    (if ordered then "Numbering_20_1" else "List_20_1") ++ "\">" }
  let acc2 := odtListItemsLoop items acc1
  { acc2 with body := acc2.body ++ "</text:list>" }
termination_by (lisSize items, 1)
decreasing_by
  exact Prod.Lex.right _ (by omega)

/-- The item loop of `buildOdtList`; a nested sub-list is rendered inside its
parent `<text:list-item>`. -/
def odtListItemsLoop : List ListItem → OdtAcc → OdtAcc
  | [], acc => acc
  | .mk runs children :: rest, acc =>
    let accA := { acc with
      body := acc.body ++ "<text:list-item><text:p text:style-name=\"Standard\">" }
    let accB := runs.foldl odtRunSpan accA
    let accC := { accB with body := accB.body ++ "</text:p>" }
    let accD :=
      match children with
      | some (o, its) => odtList o its accC
      | none => accC
    let accE := { accD with body := accD.body ++ "</text:list-item>" }
    odtListItemsLoop rest accE
termination_by its _ => (lisSize its, 0)
decreasing_by
  · exact Prod.Lex.left _ _ (lisSize_nested_lt _ _ _ _)
  · exact Prod.Lex.left _ _ (lisSize_cons_lt _ _)

end

end Tinydocx

namespace Tinydocx

/-- Whether a plain paragraph gets its own automatic paragraph style
(`el.opts?.bold || italic || color || align || font || underline`). -/
def odtParagraphStyled (opts : Option TextOptions) : Bool :=
  optTrue (opts.bind TextOptions.bold) || optTrue (opts.bind TextOptions.italic) ||
  strTruthy (opts.bind TextOptions.color) || strTruthy (opts.bind TextOptions.align) ||
  strTruthy (opts.bind TextOptions.font) || optTrue (opts.bind TextOptions.underline)

/-- Append one document element to the ODT accumulator (one iteration of the
`for (const el of elements)` loop of `generateOdtContent`).  Images and
page-number elements produce no output in the ODT renderer. -/
def odtElementAcc (acc : OdtAcc) (el : DocElement) : OdtAcc :=
  match el with
  | .heading text level =>
    { acc with body := acc.body ++ "<text:h text:style-name=\"Heading" ++ toString level ++
        "\" text:outline-level=\"" ++ toString level ++ "\">" ++ escapeXml text ++ "</text:h>" }
  | .paragraph text opts =>
    if odtParagraphStyled opts then
      let styleName := "P" ++ toString (acc.styleCount + 1)
      { body := acc.body ++ "<text:p text:style-name=\"" ++ styleName ++ "\">" ++
          escapeXml text ++ "</text:p>",
        styleCount := acc.styleCount + 1,
        styles := acc.styles ++ [buildOdtStyle styleName opts none] }
    else
      { acc with body := acc.body ++ "<text:p text:style-name=\"Standard\">" ++
          escapeXml text ++ "</text:p>" }
  | .text text size opts =>
    let styleName := "P" ++ toString (acc.styleCount + 1)
    { body := acc.body ++ "<text:p text:style-name=\"" ++ styleName ++ "\">" ++
        escapeXml text ++ "</text:p>",
      styleCount := acc.styleCount + 1,
      styles := acc.styles ++ [buildOdtStyle styleName opts (some size)] }
  | .lineBreak => { acc with body := acc.body ++ "<text:p text:style-name=\"Standard\"/>" }
  | .horizontalRule =>
    { acc with body := acc.body ++ "<text:p text:style-name=\"Standard\">" ++
        String.mk (List.replicate 40 (Char.ofNat 0x2500)) ++ "</text:p>" }
  | .list items ordered =>
    { acc with body := acc.body ++ "<text:list text:style-name=\"" ++
        (if ordered then "Numbering_20_1" else "List_20_1") ++ "\">" ++
        String.join (items.map (fun item =>
          "<text:list-item><text:p text:style-name=\"Standard\">" ++ escapeXml item ++
            "</text:p></text:list-item>")) ++
        "</text:list>" }
  | .table rows _ =>
    { acc with body := acc.body ++ "<table:table xmlns:table=\"" ++ NStable ++ "\">" ++
        String.join (rows.map (fun row =>
          "<table:table-row>" ++
            String.join (row.map (fun cell =>
              "<table:table-cell><text:p>" ++ escapeXml cell ++
                "</text:p></table:table-cell>")) ++
            "</table:table-row>")) ++
        "</table:table>" }
  | .link text url _ _ =>
    { acc with body := acc.body ++ "<text:p><text:a xlink:href=\"" ++ escapeXml url ++
        "\" xmlns:xlink=\"" ++ NSxlink ++ "\">" ++ escapeXml text ++ "</text:a></text:p>" }
  | .richParagraph runs _ =>
    let acc1 := { acc with body := acc.body ++ "<text:p text:style-name=\"Standard\">" }
    let acc2 := runs.foldl odtRunSpan acc1
    { acc2 with body := acc2.body ++ "</text:p>" }
  | .richList items ordered => odtList ordered items acc
  | .richTable rows _ =>
    let acc1 := { acc with body := acc.body ++ "<table:table xmlns:table=\"" ++ NStable ++ "\">" }
    let acc2 := rows.foldl (fun a row =>
      let a1 := { a with body := a.body ++ "<table:table-row>" }
      let a2 := row.foldl (fun b cell =>
        let b1 := { b with body := b.body ++ "<table:table-cell><text:p>" }
        let b2 := cell.foldl odtRunSpan b1
        { b2 with body := b2.body ++ "</text:p></table:table-cell>" }) a1
      { a2 with body := a2.body ++ "</table:table-row>" }) acc1
    { acc2 with body := acc2.body ++ "</table:table>" }
  | .blockquote runs =>
    { acc with body := acc.body ++ "<text:p text:style-name=\"Standard\">" ++
        String.join (runs.map (fun run => escapeXml run.text)) ++ "</text:p>" }
  | .codeBlock code _ =>
    let codeStyleName := "P" ++ toString (acc.styleCount + 1)
    { body := acc.body ++
        String.join ((code.splitOn "\n").map (fun line =>
          "<text:p text:style-name=\"" ++ codeStyleName ++ "\">" ++ escapeXml line ++
            "</text:p>")),
      styleCount := acc.styleCount + 1,
      styles := acc.styles ++
        ["<style:style style:name=\"" ++ codeStyleName ++
         "\" style:family=\"paragraph\"><style:text-properties style:font-name=\"Courier New\" fo:background-color=\"#F5F5F5\"/></style:style>"] }
  | .image _ _ _ _ => acc
  | .pageNumber => acc

/-- `generateOdtContent`: run the element loop, then wrap the collected
automatic styles and the body in the fixed document template. -/
def generateOdtContent (elements : List DocElement) : String :=
  let acc := elements.foldl odtElementAcc ⟨"", 0, []⟩
  let autoStyles := if acc.styles.length > 0 then
    "<office:automatic-styles>" ++ String.join acc.styles ++ "</office:automatic-styles>"
  else ""
  "<?xml version=\"1.0\" encoding=\"UTF-8\"?>\n<office:document-content xmlns:office=\"" ++
    NSoffice ++ "\" xmlns:text=\"" ++ NStext ++ "\" xmlns:style=\"" ++ NSstyle ++
    "\" xmlns:fo=\"" ++ NSfo ++ "\" office:version=\"1.2\">\n" ++ autoStyles ++
    "\n<office:body>\n<office:text>\n" ++ acc.body ++
    "\n</office:text>\n</office:body>\n</office:document-content>"

/-- `markdownToOdt`: parse, translate, render the four fixed parts
(`mimetype` first), and assemble the ZIP archive (`none` when the parser
throws). -/
def markdownToOdt (md : String) : Option (List Nat) :=
  (parseMarkdownToElements md).map (fun elements =>
    createZip
      [⟨"mimetype", utf8Bytes ODT_MIMETYPE⟩,
       ⟨"META-INF/manifest.xml", utf8Bytes ODT_MANIFEST⟩,
       ⟨"content.xml", utf8Bytes (generateOdtContent elements)⟩,
       ⟨"styles.xml", utf8Bytes ODT_STYLES⟩])

end Tinydocx

namespace Tinydocx

/-- A line whose first character is not whitespace does not trim to empty. -/
theorem trimChars_cons_ne_nil {c : Char} (hc : isWs c = false) (xs : List Char) :
    trimChars (c :: xs) ≠ [] := by
  unfold trimChars
  intro h
  rw [List.dropWhile_cons_of_neg (by simp [hc])] at h
  rw [List.reverse_eq_nil_iff] at h
  have h2 := List.dropWhile_eq_nil_iff.1 h c (by simp)
  rw [hc] at h2
  cases h2

/-- Trimming keeps a non-whitespace head character. -/
theorem trimChars_cons_head {c : Char} (hc : isWs c = false) (xs : List Char) :
    ∃ ys : List Char, trimChars (c :: xs) = c :: ys := by
  unfold trimChars
  rw [List.dropWhile_cons_of_neg (by simp [hc])]
  have key : ∀ zs : List Char, ∃ ys : List Char,
      (zs ++ [c]).dropWhile isWs = ys ++ [c] := by
    intro zs
    induction zs with
    | nil =>
      refine ⟨[], ?_⟩
      simp only [List.nil_append]
      exact List.dropWhile_cons_of_neg (by simp [hc])
    | cons z zs ih =>
      by_cases hz : isWs z = true
      · obtain ⟨ys, hys⟩ := ih
        refine ⟨ys, ?_⟩
        rw [List.cons_append, List.dropWhile_cons_of_pos hz, hys]
      · refine ⟨z :: zs, ?_⟩
        rw [List.cons_append, List.dropWhile_cons_of_neg hz]
  have hrev : (c :: xs).reverse = xs.reverse ++ [c] := by simp
  rw [hrev]
  obtain ⟨ys, hys⟩ := key xs.reverse
  exact ⟨ys.reverse, by rw [hys]; simp⟩

/-- A line headed by a non-whitespace character other than the three rule
characters is not a horizontal rule. -/
theorem isHrLine_false_of_head {c : Char} (hc : isWs c = false)
    (h1 : c ≠ '-') (h2 : c ≠ '*') (h3 : c ≠ '_') (xs : List Char) :
    isHrLine (c :: xs) = false := by
  obtain ⟨ys, hys⟩ := trimChars_cons_head hc xs
  simp [isHrLine, hys, h1, h2, h3]

end Tinydocx

namespace Tinydocx

/-- Quote branch of the block parser: a line starting with `"> "` opens a
block quote; the maximal run of `"> "` lines is collected, each stripped of
its first two characters, recursively block-parsed, and parsing resumes at
the first non-quote line. -/
theorem parseBlockLines_quote (t : List Char) (ls : List (List Char)) :
    parseBlockLines (('>' :: ' ' :: t) :: ls) =
      (parseBlockLines
        ((((('>' :: ' ' :: t) :: ls)).takeWhile (fun x => ['>', ' '].isPrefixOf x)).map
          (fun x => x.drop 2))).bind (fun inner =>
      (parseBlockLines ((('>' :: ' ' :: t) :: ls).dropWhile
          (fun x => ['>', ' '].isPrefixOf x))).map
        (fun bs => BlockToken.quote inner :: bs)) := by
  have htrim : ¬ (trimChars ('>' :: ' ' :: t) = []) :=
    trimChars_cons_ne_nil (by decide) _
  have hbq : (backquote == '>') = false := by decide
  have hfence : ¬ (([backquote, backquote, backquote].isPrefixOf ('>' :: ' ' :: t)) = true) := by
    simp [List.isPrefixOf, hbq]
  have hheading : ¬ (isHeadingLine ('>' :: ' ' :: t) = true) := by
    simp [isHeadingLine, headingHashes, List.takeWhile]
  have hhr : ¬ (isHrLine ('>' :: ' ' :: t) = true) := by
    rw [isHrLine_false_of_head (by decide) (by decide) (by decide) (by decide) (' ' :: t)]
    simp
  have hq : (['>', ' '].isPrefixOf ('>' :: ' ' :: t)) = true := by
    simp [List.isPrefixOf]
  conv_lhs => rw [parseBlockLines.eq_def]
  dsimp only []
  rw [if_neg htrim, if_neg hfence, if_neg hheading, if_neg hhr, if_pos hq]

end Tinydocx

namespace Tinydocx

/-- Heading branch of the block parser, before the null-match test: one to
three hashes followed by a space select the heading branch, which either
throws (line-terminator in the stripped text) or yields a heading of that
level. -/
theorem parseBlockLines_heading_branch (k : Nat) (t : List Char) (ls : List (List Char))
    (hk1 : 1 ≤ k) (hk3 : k ≤ 3) :
    parseBlockLines ((List.replicate k '#' ++ ' ' :: t) :: ls) =
      (if (t.dropWhile isWs).any isLineTerm then none
       else (parseBlockLines ls).map
         (fun bs => BlockToken.h k (parseInlineTokens (t.dropWhile isWs)) :: bs)) := by
  have htw : (List.replicate k '#' ++ ' ' :: t).takeWhile (fun c => c = '#') =
      List.replicate k '#' := by
    clear hk1 hk3
    induction k with
    | zero => simp [List.takeWhile]
    | succ m ih =>
      rw [List.replicate_succ, List.cons_append,
        List.takeWhile_cons_of_pos (by decide), ih, ← List.replicate_succ]
  obtain ⟨l', hl'⟩ : ∃ l' : List Char,
      List.replicate k '#' ++ ' ' :: t = '#' :: l' := by
    cases k with
    | zero => omega
    | succ m => exact ⟨List.replicate m '#' ++ ' ' :: t, by simp [List.replicate_succ]⟩
  have hhash : headingHashes (List.replicate k '#' ++ ' ' :: t) = k := by
    simp [headingHashes, htw]
  have hdw : (List.replicate k '#' ++ ' ' :: t).drop k = ' ' :: t := by
    have h := List.drop_left (List.replicate k '#') (' ' :: t)
    rw [List.length_replicate] at h
    exact h
  have htrim : ¬ (trimChars (List.replicate k '#' ++ ' ' :: t) = []) := by
    rw [hl']
    exact trimChars_cons_ne_nil (by decide) _
  have hbq : (backquote == '#') = false := by decide
  have hfence :
      ¬ (([backquote, backquote, backquote].isPrefixOf
        (List.replicate k '#' ++ ' ' :: t)) = true) := by
    rw [hl']
    simp [List.isPrefixOf, hbq]
  have hheading : (isHeadingLine (List.replicate k '#' ++ ' ' :: t)) = true := by
    simp [isHeadingLine, hhash, hdw, hk1, hk3, isWs]
  conv_lhs => rw [parseBlockLines.eq_def]
  dsimp only []
  rw [if_neg htrim, if_neg hfence, if_pos hheading]
  rw [hhash, Nat.min_eq_left hk3, hdw]
  rw [List.dropWhile_cons_of_pos (by decide)]

/-- Heading branch, success case: when the stripped text holds no line
terminator, the line parses to a heading of its hash count. -/
theorem parseBlockLines_heading (k : Nat) (t : List Char) (ls : List (List Char))
    (hk1 : 1 ≤ k) (hk3 : k ≤ 3)
    (hterm : (t.dropWhile isWs).any isLineTerm = false) :
    parseBlockLines ((List.replicate k '#' ++ ' ' :: t) :: ls) =
      (parseBlockLines ls).map
        (fun bs => BlockToken.h k (parseInlineTokens (t.dropWhile isWs)) :: bs) := by
  rw [parseBlockLines_heading_branch k t ls hk1 hk3, if_neg (by simp [hterm])]

/-- Heading branch, crash case: a heading line whose text contains a bare
line terminator passes the `/^#{1,3}\s/` test but nullifies the
`/^(#{1,3})\s+(.*)$/` match, so the source's non-null assertion throws a
TypeError — the parse is `none`. -/
theorem parseBlockLines_heading_crash (k : Nat) (t : List Char) (ls : List (List Char))
    (hk1 : 1 ≤ k) (hk3 : k ≤ 3)
    (hterm : (t.dropWhile isWs).any isLineTerm = true) :
    parseBlockLines ((List.replicate k '#' ++ ' ' :: t) :: ls) = none := by
  rw [parseBlockLines_heading_branch k t ls hk1 hk3, if_pos (by simp [hterm])]

end Tinydocx

namespace Tinydocx

/-- C1 (counterexample): a line of four hashes does not parse to a heading at
all — the heading test accepts at most three leading hashes, so `"#### T"`
falls through to a plain paragraph (the claimed levels 4–6 and the clamping
of more than six hashes do not exist in the code). -/
theorem c1_counterexample :
    parseMarkdownAST ("#### T") =
      some [BlockToken.p [InlineToken.text ("#### T".toList)]] := by
  simp [parseMarkdownAST, parseBlockLines, parseInlineTokens, manyInline,
    inlineElem, escapeP, codeP, boldP, strikeP, italicP, imageP, linkP, plainTextP,
    singleCharP, untilInline, isInlineSpecial, backquote, normNl, trimChars, isWs,
    isLineTerm, isHeadingLine, headingHashes, isHrLine, isTableRow, isTableSep,
    isUlMarker, isOlMarker, isListLine, olTest, countLeadWs, List.splitOn]

/-- C1 (amended): only heading levels 1–3 exist.  For `1 ≤ k ≤ 3`, a line of
`k` hashes followed by a space, whose remaining text minus further leading
JS-whitespace contains no line terminator, parses to a level-`k` heading of
that text inline-parsed; when the remaining text does contain a bare line
terminator the source's non-null heading-match assertion throws, so the
parse is `none`; and the DOCX renderer emits the heading run at the fixed
half-point size 48/36/28 for levels 1/2/3. -/
theorem c1_heading_levels (k : Nat) (t : List Char) (ls : List (List Char))
    (hk1 : 1 ≤ k) (hk3 : k ≤ 3)
    (hterm : (t.dropWhile isWs).any isLineTerm = false) :
    (parseBlockLines ((List.replicate k '#' ++ ' ' :: t) :: ls) =
      (parseBlockLines ls).map
        (fun bs => BlockToken.h k (parseInlineTokens (t.dropWhile isWs)) :: bs)) ∧
    (∀ u : List Char, (u.dropWhile isWs).any isLineTerm = true →
      parseBlockLines ((List.replicate k '#' ++ ' ' :: u) :: ls) = none) ∧
    headingSz 1 = 48 ∧ headingSz 2 = 36 ∧ headingSz 3 = 28 ∧
    (∀ text : String,
      buildDocxBody [DocElement.heading text k] =
        "<w:p><w:pPr><w:pStyle w:val=\"Heading" ++ toString k ++
        "\"/></w:pPr><w:r><w:rPr><w:b/><w:sz w:val=\"" ++ toString (headingSz k) ++
        "\"/><w:szCs w:val=\"" ++ toString (headingSz k) ++ "\"/></w:rPr><w:t>" ++
        escapeXml text ++ "</w:t></w:r></w:p>") := by
  refine ⟨parseBlockLines_heading k t ls hk1 hk3 hterm,
    fun u hu => parseBlockLines_heading_crash k u ls hk1 hk3 hu, rfl, rfl, rfl, ?_⟩
  intro text
  simp [buildDocxBody, docxElementXml, String.join]

/-- C1 (witness): instance at level 2, plus the crash case on heading text
holding a bare carriage return. -/
theorem c1_witness :
    (1 ≤ 2 ∧ 2 ≤ 3 ∧ (("Hi".toList).dropWhile isWs).any isLineTerm = false) ∧
    (parseBlockLines ((List.replicate 2 '#' ++ ' ' :: ("Hi".toList)) :: []) =
      (parseBlockLines []).map
        (fun bs => BlockToken.h 2 (parseInlineTokens (("Hi".toList).dropWhile isWs)) ::
          bs)) ∧
    (parseBlockLines ((List.replicate 2 '#' ++ ' ' :: ['a', '\r', 'b']) :: []) =
      none) :=
  ⟨⟨by decide, by decide, by decide⟩,
    (c1_heading_levels 2 ("Hi".toList) [] (by decide) (by decide) (by decide)).1,
    (c1_heading_levels 2 ("Hi".toList) [] (by decide) (by decide) (by decide)).2.1
      ['a', '\r', 'b'] (by decide)⟩

/-- C2 (counterexample): a line starting with `'>'` but no following space is
not treated as a block quote — the parser requires the two-character prefix
`"> "` — so `">x"` parses to a plain paragraph. -/
theorem c2_counterexample :
    parseMarkdownAST (">x") = some [BlockToken.p [InlineToken.text ('>' :: ['x'])]] := by
  simp [parseMarkdownAST, parseBlockLines, parseInlineTokens, manyInline,
    inlineElem, escapeP, codeP, boldP, strikeP, italicP, imageP, linkP, plainTextP,
    singleCharP, untilInline, isInlineSpecial, backquote, normNl, trimChars, isWs,
    isLineTerm, isHeadingLine, headingHashes, isHrLine, isTableRow, isTableSep,
    isUlMarker, isOlMarker, isListLine, olTest, countLeadWs, List.splitOn]

/-- C2 (amended): only lines starting with the two-character prefix `"> "`
belong to a block quote.  The parser collects the maximal run of such
consecutive lines, strips exactly those two characters from each, recursively
block-parses the stripped lines as a sub-document, and resumes after the
run. -/
theorem c2_quote_lines (t : List Char) (ls : List (List Char))
    (_hq : (['>', ' '].isPrefixOf ('>' :: ' ' :: t)) = true) :
    parseBlockLines (('>' :: ' ' :: t) :: ls) =
      (parseBlockLines
        ((((('>' :: ' ' :: t) :: ls)).takeWhile (fun x => ['>', ' '].isPrefixOf x)).map
          (fun x => x.drop 2))).bind (fun inner =>
      (parseBlockLines ((('>' :: ' ' :: t) :: ls).dropWhile
          (fun x => ['>', ' '].isPrefixOf x))).map
        (fun bs => BlockToken.quote inner :: bs)) :=
  parseBlockLines_quote t ls

/-- C2 (witness): instance on the single quoted line `"> a"`. -/
theorem c2_witness :
    ((['>', ' '].isPrefixOf ('>' :: ' ' :: ['a'])) = true) ∧
    parseBlockLines (('>' :: ' ' :: ['a']) :: []) =
      (parseBlockLines
        ((((('>' :: ' ' :: ['a']) :: [])).takeWhile
          (fun x => ['>', ' '].isPrefixOf x)).map (fun x => x.drop 2))).bind (fun inner =>
      (parseBlockLines ((('>' :: ' ' :: ['a']) :: []).dropWhile
          (fun x => ['>', ' '].isPrefixOf x))).map
        (fun bs => BlockToken.quote inner :: bs)) :=
  ⟨by decide, c2_quote_lines ['a'] [] (by decide)⟩

end Tinydocx

namespace Tinydocx

/-- C3 (counterexample): a block quote containing only a heading translates
to a block-quote element with no runs at all — the heading child is dropped,
not recursively translated. -/
theorem c3_counterexample :
    (parseMarkdownAST ("> # T")).map astToElements = some [DocElement.blockquote []] := by
  simp [parseMarkdownAST, parseBlockLines, parseInlineTokens, manyInline,
    inlineElem, escapeP, codeP, boldP, strikeP, italicP, imageP, linkP, plainTextP,
    singleCharP, untilInline, isInlineSpecial, backquote, normNl, trimChars, isWs,
    isLineTerm, isHeadingLine, headingHashes, isHrLine, isTableRow, isTableSep,
    isUlMarker, isOlMarker, isListLine, olTest, countLeadWs, List.splitOn,
    astToElements, blockToElement, quoteRuns]

/-- C3 (amended): the translator maps a block-quote token to a single
flat block-quote element holding only the concatenated runs of its
paragraph children; every non-paragraph child (heading, list, nested
quote, code fence, rule, table) contributes nothing. -/
theorem c3_blockquote_translation :
    (∀ (c : List InlineToken) (bs : List BlockToken),
      quoteRuns (BlockToken.p c :: bs) = tokensToRuns c ++ quoteRuns bs) ∧
    (∀ (bb : BlockToken) (bs : List BlockToken),
      (∀ c : List InlineToken, bb ≠ BlockToken.p c) →
        quoteRuns (bb :: bs) = quoteRuns bs) ∧
    (∀ bs : List BlockToken,
      blockToElement (BlockToken.quote bs) = [DocElement.blockquote (quoteRuns bs)]) := by
  refine ⟨fun c bs => rfl, ?_, fun bs => rfl⟩
  intro bb bs hnp
  cases bb with
  | p c => exact absurd rfl (hnp c)
  | h level content => rfl
  | pre code lang => rfl
  | quote blocks => rfl
  | hr => rfl
  | ul items => rfl
  | ol items => rfl
  | table head body => rfl

/-- C3 (witness): instance of the second conjunct at a heading child. -/
theorem c3_witness :
    (∀ c : List InlineToken, BlockToken.h 1 [] ≠ BlockToken.p c) ∧
    quoteRuns (BlockToken.h 1 [] :: []) = quoteRuns [] := by
  constructor
  · intro c h
    cases h
  · exact c3_blockquote_translation.2.1 (BlockToken.h 1 []) []
      (fun c h => by cases h)

/-- C4 (counterexample): the input `"****"` parses to a strong-emphasis token
with an empty children list, not to literal text — `untilInline` happily
returns zero interior tokens and the closing marker matches immediately. -/
theorem c4_counterexample :
    parseInlineTokens ("****".toList) = [InlineToken.bold []] := by
  simp [parseInlineTokens, manyInline, inlineElem, escapeP, codeP, boldP, strikeP,
    italicP, imageP, linkP, plainTextP, singleCharP, untilInline, isInlineSpecial,
    backquote]

/-- C4 (amended): strong emphasis and strikethrough accept empty interiors
(producing `bold`/`strike` tokens with no children); only single-marker
emphasis enforces a non-empty interior (a successful `italicP` consumes at
least three characters: two markers and one character of content), and a
bare `"**"` degrades to two literal characters. -/
theorem c4_empty_emphasis :
    parseInlineTokens ("****".toList) = [InlineToken.bold []] ∧
    parseInlineTokens ("~~~~".toList) = [InlineToken.strike []] ∧
    parseInlineTokens ("**".toList) = [InlineToken.text ['*'], InlineToken.text ['*']] ∧
    (∀ (s : List Char) (v : InlineToken) (r : List Char),
      italicP s = .ok v r → r.length + 3 ≤ s.length) := by
  refine ⟨?_, ?_, ?_, ?_⟩
  · simp [parseInlineTokens, manyInline, inlineElem, escapeP, codeP, boldP, strikeP,
      italicP, imageP, linkP, plainTextP, singleCharP, untilInline, isInlineSpecial,
      backquote]
  · simp [parseInlineTokens, manyInline, inlineElem, escapeP, codeP, boldP, strikeP,
      italicP, imageP, linkP, plainTextP, singleCharP, untilInline, isInlineSpecial,
      backquote]
  · simp [parseInlineTokens, manyInline, inlineElem, escapeP, codeP, boldP, strikeP,
      italicP, imageP, linkP, plainTextP, singleCharP, untilInline, isInlineSpecial,
      backquote]
  · intro s v r h
    unfold italicP at h
    split at h
    · rename_i c rest
      split at h
      · split at h
        · cases h
        · split at h
          · cases h
          · rename_i i hfind
            split at h
            · cases h
            · rename_i hgt
              cases h
              have hlen : i < rest.length := (List.findIdx?_eq_some_iff_findIdx_eq.1 hfind).1
              simp [List.length_drop]
              omega
      · cases h
    · cases h

/-- C4 (witness): instance of the italic conjunct at `"*a*"`. -/
theorem c4_witness :
    (italicP ("*a*".toList) = .ok (InlineToken.italic [InlineToken.text ['a']]) []) ∧
    ([] : List Char).length + 3 ≤ ("*a*".toList).length :=
  ⟨by simp [italicP, parseInlineTokens, manyInline, inlineElem, escapeP, codeP, boldP,
      strikeP, imageP, linkP, plainTextP, singleCharP, untilInline, isInlineSpecial,
      backquote],
    c4_empty_emphasis.2.2.2 ("*a*".toList) (InlineToken.italic [InlineToken.text ['a']]) []
      (by simp [italicP, parseInlineTokens, manyInline, inlineElem, escapeP, codeP, boldP,
        strikeP, imageP, linkP, plainTextP, singleCharP, untilInline, isInlineSpecial,
        backquote])⟩

end Tinydocx

namespace Tinydocx

/-- C5: the inline parser terminates on every input.  Every successful step
of the inline-element parser consumes at least one character, and the
`many(inlineElem)` loop therefore finishes within `length + 1` iterations,
returning the token sequence `parseInlineTokens` delivers. -/
theorem c5_inline_parser_terminates :
    (∀ (s : List Char) (v : InlineToken) (r : List Char),
      inlineElem s = .ok v r → r.length < s.length) ∧
    (∀ s : List Char,
      manyInlineF (s.length + 1) s = some (parseInlineTokens s, (manyInline s).2)) := by
  refine ⟨fun s v r h => inlineElem_consumes h, ?_⟩
  intro s
  rw [manyInlineF_eq (s.length + 1) s (by omega)]
  have hp : parseInlineTokens s = (manyInline s).1 := by
    unfold parseInlineTokens
    rfl
  rw [hp]

/-- C5 (witness): instance of the progress property on the input `"ab"`. -/
theorem c5_witness :
    (inlineElem ("ab".toList) = .ok (InlineToken.text ['a', 'b']) []) ∧
    ([] : List Char).length < ("ab".toList).length :=
  ⟨by simp [inlineElem, escapeP, codeP, boldP, strikeP, italicP, imageP, linkP,
      plainTextP, singleCharP, untilInline, isInlineSpecial, backquote],
    c5_inline_parser_terminates.1 ("ab".toList) (InlineToken.text ['a', 'b']) []
      (by simp [inlineElem, escapeP, codeP, boldP, strikeP, italicP, imageP, linkP,
        plainTextP, singleCharP, untilInline, isInlineSpecial, backquote])⟩

end Tinydocx

namespace Tinydocx

/-- C6: shape of every produced archive (non-empty input, entry count below
2^16).  The archive starts with the local-file-header magic; it is exactly
the local sections in input order, followed by the central directory, and
one end-of-central-directory record whose two count fields decode to the
number of entries; entry offsets are the partial sums of the local-section
sizes, and each central record's offset field (bytes 42–45) encodes its
entry's local-header offset. -/
theorem c6_zip_wellformed (files : List ZipFile) (hne : files ≠ [])
    (hcount : files.length < 65536) :
    ((createZip files).take 4 = [0x50, 0x4B, 0x03, 0x04]) ∧
    (createZip files =
      zipLocalBytes (zipEntries files 0) ++ zipCentralBytes (zipEntries files 0) ++
        eocdBytes files.length (zipCentralBytes (zipEntries files 0)).length
          (zipLocalBytes (zipEntries files 0)).length) ∧
    (byteDecode16At
        (eocdBytes files.length (zipCentralBytes (zipEntries files 0)).length
          (zipLocalBytes (zipEntries files 0)).length) 8 = files.length ∧
      byteDecode16At
        (eocdBytes files.length (zipCentralBytes (zipEntries files 0)).length
          (zipLocalBytes (zipEntries files 0)).length) 10 = files.length) ∧
    (zipEntries files 0 =
      files.mapIdx (fun i f => (utf8Bytes f.name, f.data, zipLocalOffset files i))) ∧
    (∀ (nb d : List Nat) (o : Nat),
      ((centralEntryBytes nb d o).drop 42).take 4 = le32 o) ∧
    (∀ o : Nat, o < 4294967296 → byteDecode32 (le32 o) = o) := by
  refine ⟨?_, rfl, eocd_counts _ _ _ hcount, ?_, central_offset_field, fun o ho => byteDecode32_le32 ho⟩
  · match files, hne with
    | f :: fs, _ => exact createZip_magic f fs
  · rw [zipEntries_eq files 0]
    congr 1
    funext i f
    simp

/-- C6 (witness): instance on a one-entry archive. -/
theorem c6_witness :
    (([⟨"a", [65]⟩] : List ZipFile) ≠ [] ∧ ([⟨"a", [65]⟩] : List ZipFile).length < 65536) ∧
    ((createZip [⟨"a", [65]⟩]).take 4 = [0x50, 0x4B, 0x03, 0x04]) :=
  ⟨⟨by simp, by decide⟩, (c6_zip_wellformed [⟨"a", [65]⟩] (by simp) (by decide)).1⟩

/-- C7: the source's bit-at-a-time CRC-32 agrees with the reference
table-driven algorithm (256-entry table, reflected polynomial 0xEDB88320)
on every byte sequence. -/
theorem c7_crc32_table_equiv (data : List Nat) (hdata : ∀ b ∈ data, b < 256) :
    crc32 data = crc32Ref data := by
  unfold crc32 crc32Ref
  rw [crc32Aux_eq_ref data hdata]

/-- C7 (witness): instance on the bytes `[1, 2, 3]`. -/
theorem c7_witness :
    (∀ b ∈ [1, 2, 3], b < 256) ∧ crc32 [1, 2, 3] = crc32Ref [1, 2, 3] :=
  ⟨by decide, c7_crc32_table_equiv [1, 2, 3] (by decide)⟩

set_option maxRecDepth 100000 in
/-- The standard CRC-32 check vector: the ASCII bytes of `"123456789"`
hash to 0xCBF43926 (sanity check that the embedded `crc32` is the real
algorithm). -/
theorem crc32_check_vector :
    crc32 [49, 50, 51, 52, 53, 54, 55, 56, 57] = 0xCBF43926 := by decide

end Tinydocx

namespace Tinydocx

set_option maxRecDepth 4000 in
/-- C8: the nested-list pipeline.  `"- A\n  - B\n- C"` parses to one
unordered list with two top-level items, the first owning exactly one nested
child item `B`; translation preserves the shape; and the DOCX renderer emits
the nested item at `ilvl 1` between the two top-level items at `ilvl 0`. -/
theorem c8_nested_list :
    parseMarkdownAST ("- A\n  - B\n- C") =
      some [BlockToken.ul
        [ListNodeItem.mk [InlineToken.text ['A']]
          (some (false, [ListNodeItem.mk [InlineToken.text ['B']] none])),
         ListNodeItem.mk [InlineToken.text ['C']] none]] ∧
    parseMarkdownToElements ("- A\n  - B\n- C") =
      some [DocElement.richList
        [ListItem.mk [{ text := "A" }] (some (false, [ListItem.mk [{ text := "B" }] none])),
         ListItem.mk [{ text := "C" }] none] false] ∧
    (parseMarkdownToElements ("- A\n  - B\n- C")).map buildDocxBody =
      some ("<w:p><w:pPr><w:numPr><w:ilvl w:val=\"0\"/><w:numId w:val=\"1\"/></w:numPr></w:pPr><w:r><w:t>A</w:t></w:r></w:p>" ++
      "<w:p><w:pPr><w:numPr><w:ilvl w:val=\"1\"/><w:numId w:val=\"1\"/></w:numPr></w:pPr><w:r><w:t>B</w:t></w:r></w:p>" ++
      "<w:p><w:pPr><w:numPr><w:ilvl w:val=\"0\"/><w:numId w:val=\"1\"/></w:numPr></w:pPr><w:r><w:t>C</w:t></w:r></w:p>") := by
  have h1 : parseMarkdownAST ("- A\n  - B\n- C") =
      some [BlockToken.ul
        [ListNodeItem.mk [InlineToken.text ['A']]
          (some (false, [ListNodeItem.mk [InlineToken.text ['B']] none])),
         ListNodeItem.mk [InlineToken.text ['C']] none]] := by
    simp [parseMarkdownAST, parseBlockLines, parseListLoop, parseInlineTokens, manyInline,
      inlineElem, escapeP, codeP, boldP, strikeP, italicP, imageP, linkP, plainTextP,
      singleCharP, untilInline, isInlineSpecial, backquote, normNl, trimChars, isWs,
      isLineTerm, isHeadingLine, headingHashes, isHrLine, isTableRow, isTableSep,
      isUlMarker, isOlMarker, isListLine, olTest, stripListMarker, markerMatches,
      countLeadWs, headIsSep, joinNl, parseRowCells, linesMeasure, List.splitOn]
  have h2 : parseMarkdownToElements ("- A\n  - B\n- C") =
      some [DocElement.richList
        [ListItem.mk [{ text := "A" }] (some (false, [ListItem.mk [{ text := "B" }] none])),
         ListItem.mk [{ text := "C" }] none] false] := by
    simp only [parseMarkdownToElements]
    rw [h1]
    simp [astToElements, blockToElement, listNodesToListItems, listNodeToListItem,
      tokensToRuns, runsAux, tokenRuns, mergeTextTokens, TextOptions.noKeys]
  refine ⟨h1, h2, ?_⟩
  rw [h2]
  simp [buildDocxBody, docxElementXml, docxListItems, docxRunXml, buildDocxRunProps,
    TextOptions.noKeys, optTrue, strTruthy, natTruthy, escapeXml, replaceChar,
    String.join, getAlignment]
  decide

end Tinydocx

namespace Tinydocx

/-- C9: `detectImageType` is total and honours the magic numbers: PNG, JPEG,
GIF and RIFF/WEBP prefixes map to their types, the empty array and every
unrecognized input default to `"png"`, and the result is always one of the
four types. -/
theorem c9_detect_image_type :
    (∀ d : List Nat, [0x89, 0x50, 0x4E, 0x47].isPrefixOf d → detectImageType d = "png") ∧
    (∀ d : List Nat, [0xFF, 0xD8].isPrefixOf d → detectImageType d = "jpeg") ∧
    (∀ d : List Nat, [0x47, 0x49, 0x46].isPrefixOf d → detectImageType d = "gif") ∧
    (∀ d : List Nat, [0x52, 0x49, 0x46, 0x46].isPrefixOf d →
      (d.drop 8).take 4 = [0x57, 0x45, 0x42, 0x50] → detectImageType d = "webp") ∧
    detectImageType [] = "png" ∧
    (∀ d : List Nat, detectImageType d = "png" ∨ detectImageType d = "jpeg" ∨
      detectImageType d = "gif" ∨ detectImageType d = "webp") := by
  refine ⟨?_, ?_, ?_, ?_, by rfl, ?_⟩
  · intro d h
    rw [List.isPrefixOf_iff_prefix] at h
    obtain ⟨rest, rfl⟩ := h
    simp [detectImageType]
  · intro d h
    rw [List.isPrefixOf_iff_prefix] at h
    obtain ⟨rest, rfl⟩ := h
    simp [detectImageType]
  · intro d h
    rw [List.isPrefixOf_iff_prefix] at h
    obtain ⟨rest, rfl⟩ := h
    simp [detectImageType]
  · intro d h hw
    rw [List.isPrefixOf_iff_prefix] at h
    obtain ⟨rest, rfl⟩ := h
    have h8 := congrArg (fun l : List Nat => l[0]?) hw
    have h9 := congrArg (fun l : List Nat => l[1]?) hw
    have h10 := congrArg (fun l : List Nat => l[2]?) hw
    have h11 := congrArg (fun l : List Nat => l[3]?) hw
    simp [List.getElem?_take, List.getElem?_drop] at h8 h9 h10 h11
    simp [detectImageType, h8, h9, h10, h11]
  · intro d
    unfold detectImageType
    split
    · exact Or.inl rfl
    · split
      · exact Or.inr (Or.inl rfl)
      · split
        · exact Or.inr (Or.inr (Or.inl rfl))
        · split
          · exact Or.inr (Or.inr (Or.inr rfl))
          · exact Or.inl rfl

/-- C9 (witness): instances at concrete byte arrays. -/
theorem c9_witness :
    ([0x89, 0x50, 0x4E, 0x47].isPrefixOf [0x89, 0x50, 0x4E, 0x47, 0] = true) ∧
    detectImageType [0x89, 0x50, 0x4E, 0x47, 0] = "png" ∧
    detectImageType [0xFF, 0xD8, 1] = "jpeg" ∧
    detectImageType [7] = "png" :=
  ⟨by decide,
    c9_detect_image_type.1 [0x89, 0x50, 0x4E, 0x47, 0] (by decide),
    c9_detect_image_type.2.1 [0xFF, 0xD8, 1] (by decide),
    by decide⟩

/-- C10: both markdown converters are deterministic (the embedding is a pure
function of the input: the pipeline uses no clock, randomness, or shared
state), and the ZIP writer fixes the modification time and date fields of
every entry to zero — bytes 10–13 of each local header and bytes 12–15 of
each central record are zero. -/
theorem c10_determinism_and_fixed_timestamps :
    (∀ md : String, markdownToDocx md = markdownToDocx md) ∧
    (∀ md : String, markdownToOdt md = markdownToOdt md) ∧
    (∀ nameBytes data : List Nat, ∃ r : List Nat,
      localEntryBytes nameBytes data =
        [0x50, 0x4B, 0x03, 0x04, 20, 0, 0, 0, 0, 0, 0, 0, 0, 0] ++ r) ∧
    (∀ (nameBytes data : List Nat) (offset : Nat), ∃ r : List Nat,
      centralEntryBytes nameBytes data offset =
        [0x50, 0x4B, 0x01, 0x02, 20, 0, 20, 0, 0, 0, 0, 0, 0, 0, 0, 0] ++ r) :=
  ⟨fun _ => rfl, fun _ => rfl, localEntryBytes_head, centralEntryBytes_head⟩

end Tinydocx


namespace Tinydocx

/-- One step of the source's `reduce` in `mergeTextTokens`: a text token is
merged into a trailing text token of the accumulator, anything else is
pushed. -/
def mergeStep (acc : List InlineToken) (t : InlineToken) : List InlineToken :=
  match t, acc.getLast? with
  | .text c, some (.text c0) => acc.dropLast ++ [.text (c0 ++ c)]
  | _, _ => acc ++ [t]

/-- The source's left-to-right `reduce` with an empty initial accumulator. -/
def mergeTextTokensFold (ts : List InlineToken) : List InlineToken :=
  ts.foldl mergeStep []

theorem mergeStep_text_merge (acc : List InlineToken) (c c0 : List Char)
    (h : acc.getLast? = some (.text c0)) :
    mergeStep acc (.text c) = acc.dropLast ++ [.text (c0 ++ c)] := by
  simp [mergeStep, h]

theorem mergeStep_text_push (acc : List InlineToken) (c : List Char)
    (h : ∀ c0, acc.getLast? ≠ some (.text c0)) :
    mergeStep acc (.text c) = acc ++ [.text c] := by
  cases hl : acc.getLast? with
  | none => simp [mergeStep, hl]
  | some t0 =>
    cases t0
    case text c0 => exact absurd hl (h c0)
    all_goals simp [mergeStep, hl]

theorem mergeStep_nontext (acc : List InlineToken) (t : InlineToken)
    (h : ∀ c, t ≠ .text c) : mergeStep acc t = acc ++ [t] := by
  cases t
  case text c => exact absurd rfl (h c)
  all_goals rfl

/-- Generalized agreement of the fold with the recursive rendering, for any
accumulator that cannot merge across the boundary. -/
theorem foldl_mergeStep_eq (n : Nat) : ∀ ts : List InlineToken, ts.length ≤ n →
    ∀ pre : List InlineToken,
      ((∀ c, pre.getLast? ≠ some (InlineToken.text c)) ∨
        (∀ c, ts.head? ≠ some (InlineToken.text c))) →
      ts.foldl mergeStep pre = pre ++ mergeTextTokens ts := by
  induction n with
  | zero =>
    intro ts hts pre _
    have h0 : ts = [] := List.length_eq_zero.1 (Nat.le_zero.1 hts)
    subst h0
    simp [mergeTextTokens]
  | succ m ih =>
    intro ts hts pre hpre
    by_cases htt : ∃ a b rest2, ts = InlineToken.text a :: InlineToken.text b :: rest2
    · obtain ⟨a, b, rest2, rfl⟩ := htt
      have hlast : ∀ c, pre.getLast? ≠ some (InlineToken.text c) := by
        rcases hpre with h | h
        · exact h
        · exact absurd rfl (h a)
      have h1 : mergeStep pre (InlineToken.text a) = pre ++ [.text a] :=
        mergeStep_text_push pre a hlast
      have h2 : mergeStep (pre ++ [InlineToken.text a]) (InlineToken.text b) =
          pre ++ [.text (a ++ b)] := by
        rw [mergeStep_text_merge _ b a (by rw [List.getLast?_concat]),
          List.dropLast_concat]
      have h3 : mergeStep pre (InlineToken.text (a ++ b)) = pre ++ [.text (a ++ b)] :=
        mergeStep_text_push pre _ hlast
      have hfold : (InlineToken.text a :: InlineToken.text b :: rest2).foldl mergeStep pre =
          (InlineToken.text (a ++ b) :: rest2).foldl mergeStep pre := by
        simp only [List.foldl_cons, h1, h2, h3]
      rw [hfold, ih (InlineToken.text (a ++ b) :: rest2) (by simp at hts ⊢; omega) pre
        (Or.inl hlast)]
      rw [show mergeTextTokens (InlineToken.text a :: InlineToken.text b :: rest2) =
          mergeTextTokens (InlineToken.text (a ++ b) :: rest2) from by
        simp [mergeTextTokens]]
    · cases ts with
      | nil => simp [mergeTextTokens]
      | cons t rest =>
        have hpush : mergeStep pre t = pre ++ [t] := by
          by_cases ht : ∃ c, t = InlineToken.text c
          · obtain ⟨c, rfl⟩ := ht
            apply mergeStep_text_push
            rcases hpre with h | h
            · exact h
            · exact absurd rfl (h c)
          · exact mergeStep_nontext pre t (fun c hc => ht ⟨c, hc⟩)
        have hsplit : mergeTextTokens (t :: rest) = t :: mergeTextTokens rest := by
          by_cases ht : ∃ c, t = InlineToken.text c
          · obtain ⟨c, rfl⟩ := ht
            cases rest with
            | nil => simp [mergeTextTokens]
            | cons t2 rest2 =>
              cases t2
              · rename_i d
                exact absurd ⟨c, d, rest2, rfl⟩ htt
              all_goals simp [mergeTextTokens]
          · cases t
            · rename_i c
              exact absurd ⟨c, rfl⟩ ht
            all_goals simp [mergeTextTokens]
        have hbound : (∀ c, (pre ++ [t]).getLast? ≠ some (InlineToken.text c)) ∨
            (∀ c, rest.head? ≠ some (InlineToken.text c)) := by
          by_cases ht : ∃ c, t = InlineToken.text c
          · obtain ⟨c, rfl⟩ := ht
            right
            intro d hd
            cases rest with
            | nil => simp at hd
            | cons t2 rest2 =>
              simp at hd
              exact htt ⟨c, d, rest2, by rw [hd]⟩
          · left
            intro c hc
            rw [List.getLast?_concat] at hc
            exact ht ⟨c, by injection hc⟩
        calc (t :: rest).foldl mergeStep pre
            = rest.foldl mergeStep (pre ++ [t]) := by
              simp only [List.foldl_cons, hpush]
          _ = (pre ++ [t]) ++ mergeTextTokens rest :=
              ih rest (by simp at hts ⊢; omega) (pre ++ [t]) hbound
          _ = pre ++ (t :: mergeTextTokens rest) := by simp
          _ = pre ++ mergeTextTokens (t :: rest) := by rw [hsplit]

/-- The source's `reduce`-style merge and the recursive `mergeTextTokens`
used throughout this development agree on every token list. -/
theorem mergeTextTokensFold_eq (ts : List InlineToken) :
    mergeTextTokensFold ts = mergeTextTokens ts := by
  have h := foldl_mergeStep_eq ts.length ts le_rfl []
    (Or.inl (by intro c hc; simp at hc))
  simpa [mergeTextTokensFold] using h

end Tinydocx

namespace Tinydocx

/-- Branch equation: the list loop on no lines. -/
theorem parseListLoop_nil_eq (ordered : Bool) (indent : Nat) :
    parseListLoop ordered indent [] = ([], []) := by
  rw [parseListLoop.eq_def]

/-- Branch equation: a line that is neither a sibling marker nor more
indented stops the loop without consuming it. -/
theorem parseListLoop_stop (ordered : Bool) (indent : Nat) (l : List Char)
    (rest : List (List Char))
    (hm : ¬(countLeadWs l = indent ∧ markerMatches ordered l = true))
    (hs : ¬countLeadWs l > indent) :
    parseListLoop ordered indent (l :: rest) = ([], l :: rest) := by
  conv_lhs => rw [parseListLoop.eq_def]
  dsimp only []
  rw [if_neg hm, if_neg hs]

/-- Branch equation: a more-indented non-marker line is skipped. -/
theorem parseListLoop_skip (ordered : Bool) (indent : Nat) (l : List Char)
    (rest : List (List Char))
    (hm : ¬(countLeadWs l = indent ∧ markerMatches ordered l = true))
    (hs : countLeadWs l > indent) :
    parseListLoop ordered indent (l :: rest) = parseListLoop ordered indent rest := by
  conv_lhs => rw [parseListLoop.eq_def]
  dsimp only []
  rw [if_neg hm, if_pos hs]

/-- Branch equation: a final marker line yields one childless item. -/
theorem parseListLoop_last (ordered : Bool) (indent : Nat) (l : List Char)
    (hm : countLeadWs l = indent ∧ markerMatches ordered l = true) :
    parseListLoop ordered indent [l] =
      ([ListNodeItem.mk (parseInlineTokens (stripListMarker l)) none], []) := by
  conv_lhs => rw [parseListLoop.eq_def]
  dsimp only []
  rw [if_pos hm]

/-- Branch equation: a marker line followed by a non-nested line yields a
childless item and continues on the remaining lines. -/
theorem parseListLoop_sibling (ordered : Bool) (indent : Nat) (l next : List Char)
    (tailr : List (List Char))
    (hm : countLeadWs l = indent ∧ markerMatches ordered l = true)
    (hn : ¬(countLeadWs next > indent ∧ isListLine next = true)) :
    parseListLoop ordered indent (l :: next :: tailr) =
      (ListNodeItem.mk (parseInlineTokens (stripListMarker l)) none ::
        (parseListLoop ordered indent (next :: tailr)).1,
       (parseListLoop ordered indent (next :: tailr)).2) := by
  conv_lhs => rw [parseListLoop.eq_def]
  dsimp only []
  rw [if_pos hm, if_neg hn]

/-- Branch equation: a marker line followed by a more-indented marker line
parses the nested sub-list, attaches it, and continues after it. -/
theorem parseListLoop_nested (ordered : Bool) (indent : Nat) (l next : List Char)
    (tailr : List (List Char))
    (hm : countLeadWs l = indent ∧ markerMatches ordered l = true)
    (hn : countLeadWs next > indent ∧ isListLine next = true)
    (hg : (parseListLoop (olTest next) (countLeadWs next) (next :: tailr)).2.length <
      (l :: next :: tailr).length) :
    parseListLoop ordered indent (l :: next :: tailr) =
      (ListNodeItem.mk (parseInlineTokens (stripListMarker l))
          (some (olTest next,
            (parseListLoop (olTest next) (countLeadWs next) (next :: tailr)).1)) ::
        (parseListLoop ordered indent
          (parseListLoop (olTest next) (countLeadWs next) (next :: tailr)).2).1,
       (parseListLoop ordered indent
          (parseListLoop (olTest next) (countLeadWs next) (next :: tailr)).2).2) := by
  conv_lhs => rw [parseListLoop.eq_def]
  dsimp only []
  rw [if_pos hm, if_pos hn, dif_pos hg]

/-- Branch equation for the size guard's `else` arm (shown unreachable by
`parseListLoop_rest_le`). -/
theorem parseListLoop_nested_stop (ordered : Bool) (indent : Nat) (l next : List Char)
    (tailr : List (List Char))
    (hm : countLeadWs l = indent ∧ markerMatches ordered l = true)
    (hn : countLeadWs next > indent ∧ isListLine next = true)
    (hg : ¬(parseListLoop (olTest next) (countLeadWs next) (next :: tailr)).2.length <
      (l :: next :: tailr).length) :
    parseListLoop ordered indent (l :: next :: tailr) =
      ([ListNodeItem.mk (parseInlineTokens (stripListMarker l))
          (some (olTest next,
            (parseListLoop (olTest next) (countLeadWs next) (next :: tailr)).1))],
       (parseListLoop (olTest next) (countLeadWs next) (next :: tailr)).2) := by
  conv_lhs => rw [parseListLoop.eq_def]
  dsimp only []
  rw [if_pos hm, if_pos hn, dif_neg hg]

/-- The list loop's remaining-lines component is always a suffix of its
input: the cursor only moves forward. -/
theorem parseListLoop_rest_suffix (n : Nat) : ∀ ls : List (List Char), ls.length ≤ n →
    ∀ (ordered : Bool) (indent : Nat), (parseListLoop ordered indent ls).2 <:+ ls := by
  induction n with
  | zero =>
    intro ls hls ordered indent
    have h0 : ls = [] := List.length_eq_zero.1 (Nat.le_zero.1 hls)
    subst h0
    rw [parseListLoop_nil_eq]
  | succ m ih =>
    intro ls hls ordered indent
    cases ls with
    | nil => rw [parseListLoop_nil_eq]
    | cons l rest =>
      by_cases hm : countLeadWs l = indent ∧ markerMatches ordered l = true
      · cases rest with
        | nil =>
          rw [parseListLoop_last ordered indent l hm]
          exact List.nil_suffix
        | cons next tailr =>
          by_cases hn : countLeadWs next > indent ∧ isListLine next = true
          · have hsub : (parseListLoop (olTest next) (countLeadWs next)
                (next :: tailr)).2 <:+ (next :: tailr) :=
              ih (next :: tailr) (by simp at hls ⊢; omega) _ _
            by_cases hg : (parseListLoop (olTest next) (countLeadWs next)
                (next :: tailr)).2.length < (l :: next :: tailr).length
            · rw [parseListLoop_nested ordered indent l next tailr hm hn hg]
              have hlen : (parseListLoop (olTest next) (countLeadWs next)
                  (next :: tailr)).2.length ≤ m := by
                have := hsub.length_le
                simp at hls this ⊢
                omega
              exact (ih _ hlen ordered indent).trans
                (hsub.trans (List.suffix_cons _ _))
            · rw [parseListLoop_nested_stop ordered indent l next tailr hm hn hg]
              exact hsub.trans (List.suffix_cons _ _)
          · rw [parseListLoop_sibling ordered indent l next tailr hm hn]
            exact (ih (next :: tailr) (by simp at hls ⊢; omega) ordered indent).trans
              (List.suffix_cons _ _)
      · by_cases hs : countLeadWs l > indent
        · rw [parseListLoop_skip ordered indent l rest hm hs]
          exact (ih rest (by simp at hls ⊢; omega) ordered indent).trans
            (List.suffix_cons _ _)
        · rw [parseListLoop_stop ordered indent l rest hm hs]

/-- The list loop never returns more lines than it was given; hence the
size guard in `parseListLoop` is always satisfied and its `else` arm is
dead code, matching the source's unguarded forward loop. -/
theorem parseListLoop_rest_le (ordered : Bool) (indent : Nat) (ls : List (List Char)) :
    (parseListLoop ordered indent ls).2.length ≤ ls.length :=
  (parseListLoop_rest_suffix ls.length ls le_rfl ordered indent).length_le

/-- The size guard of the nested branch always holds. -/
theorem parseListLoop_guard_total (l next : List Char) (tailr : List (List Char)) :
    (parseListLoop (olTest next) (countLeadWs next) (next :: tailr)).2.length <
      (l :: next :: tailr).length := by
  have := parseListLoop_rest_le (olTest next) (countLeadWs next) (next :: tailr)
  simp only [List.length_cons] at this ⊢
  omega

end Tinydocx

namespace Tinydocx

/-- A line matching the unordered-marker regex fails the ordered test: its
first non-whitespace character is a dash or asterisk, not a digit. -/
theorem olTest_false_of_ulMarker (l : List Char) (h : isUlMarker l = true) :
    olTest l = false := by
  unfold isUlMarker at h
  cases hr : l.dropWhile isWs with
  | nil => rw [hr] at h; exact absurd h (by simp)
  | cons c rest =>
    rw [hr] at h
    cases rest with
    | nil => exact absurd h (by simp)
    | cons d rest2 =>
      simp only [Bool.and_eq_true, Bool.or_eq_true, decide_eq_true_eq] at h
      have hc : c.isDigit = false := by
        rcases h.1 with h1 | h1 <;> subst h1 <;> decide
      simp [olTest, hr, List.takeWhile_cons, hc]

/-- A line matching the ordered-marker regex passes the ordered test. -/
theorem olTest_true_of_olMarker (l : List Char) (h : isOlMarker l = true) :
    olTest l = true := by
  unfold isOlMarker at h
  simp only [Bool.and_eq_true, Bool.not_eq_true'] at h
  obtain ⟨h1, h2⟩ := h
  simp only [olTest, Bool.and_eq_true, Bool.not_eq_true', decide_eq_true_eq]
  refine ⟨h1, ?_⟩
  split at h2
  · rename_i heq
    rw [heq]
    rfl
  · cases h2

/-- A list line always matches the marker regex chosen by its own ordered
test; the entry call of the block parser's list branch therefore takes the
sibling branch on its first line. -/
theorem markerMatches_olTest (l : List Char) (h : isListLine l = true) :
    markerMatches (olTest l) l = true := by
  unfold isListLine at h
  simp only [Bool.or_eq_true] at h
  unfold markerMatches
  cases ho : olTest l
  · simp only [Bool.false_eq_true, if_false]
    rcases h with h | h
    · exact h
    · rw [olTest_true_of_olMarker l h] at ho
      cases ho
  · simp only [if_true]
    rcases h with h | h
    · rw [olTest_false_of_ulMarker l h] at ho
      cases ho
    · exact h

/-- Entering the list loop from the block parser on a list line consumes at
least that line: the remaining lines are a suffix of the tail. -/
theorem parseListLoop_entry_consumes (l : List Char) (rest : List (List Char))
    (h : isListLine l = true) :
    (parseListLoop (olTest l) (countLeadWs l) (l :: rest)).2 <:+ rest := by
  have hm : countLeadWs l = countLeadWs l ∧ markerMatches (olTest l) l = true :=
    ⟨rfl, markerMatches_olTest l h⟩
  cases rest with
  | nil =>
    rw [parseListLoop_last _ _ _ hm]
  | cons next tailr =>
    by_cases hn : countLeadWs next > countLeadWs l ∧ isListLine next = true
    · rw [parseListLoop_nested _ _ _ _ _ hm hn (parseListLoop_guard_total l next tailr)]
      exact (parseListLoop_rest_suffix _ _ le_rfl _ _).trans
        (parseListLoop_rest_suffix _ _ le_rfl _ _)
    · rw [parseListLoop_sibling _ _ _ _ _ hm hn]
      exact parseListLoop_rest_suffix _ _ le_rfl _ _

/-- The size guard of the block parser's list branch always holds: the list
loop strictly decreases the line measure, matching the source's unguarded
forward cursor. -/
theorem parseBlockLines_list_guard (l : List Char) (rest : List (List Char))
    (h : isListLine l = true) :
    linesMeasure (parseListLoop (olTest l) (countLeadWs l) (l :: rest)).2 <
      linesMeasure (l :: rest) := by
  have h2 := linesMeasure_sublist_le (parseListLoop_entry_consumes l rest h).sublist
  simp only [linesMeasure_cons]
  omega

end Tinydocx
